import Mathlib

/-!
Verification development for the NextAction synchronizer (`nextaction.py`).

The embedding below translates the core of the program into Lean:

* flat item records (the dict entries of the v5 sync payload) become `ItemRec`;
* the `Item` tree nodes built by `Item.__init__` become `ItemData` payloads in a
  rose tree `Item`;
* `TraversalState` with its `clone`/`merge` operations is carried explicitly
  through the traversal functions instead of being mutated in place;
* the module-level `args.use_priority` flag is passed explicitly as a `Bool`
  parameter named `up`;
* `_next_action_id` is an `Option Nat` (Python `None` vs. a resolved id; the
  temporary string id `'$%d' % time` is modelled by its numeric timestamp,
  ids being opaque);
* fallible operations (Python `KeyError` / `AttributeError`) return `Option`.

The field `due_date_utc` is parsed by `Item.__init__` but only ever used by the
disabled `SortChildren` (a `pass` body); it is omitted from the embedding.
-/

/-- A flat item record as stored in `Project.unsorted_items` (a dict entry of
the sync payload).  `checked` and `is_deleted` are the 0/1 integers of the
payload; `labels` is the list of label ids. -/
structure ItemRec where
  id : Nat
  project_id : Nat
  content : String
  indent : Nat
  item_order : Nat
  checked : Nat
  labels : List Nat
  priority : Nat
  is_deleted : Nat
deriving DecidableEq, Repr

/-- The fields `Item.__init__` copies out of a flat record (tree-node payload). -/
structure ItemData where
  checked : Bool
  content : String
  indent : Nat
  item_id : Nat
  labels : List Nat
  priority : Nat
deriving DecidableEq, Repr

/-- `Item.__init__`: convert a flat record into a tree-node payload. -/
def ItemData.ofRec (r : ItemRec) : ItemData :=
  { checked := r.checked == 1
    content := r.content
    indent := r.indent
    item_id := r.id
    labels := r.labels
    priority := r.priority }

/-- The item tree: `parent`/`children` pointers of the Python object graph are
represented by the tree structure itself. -/
inductive Item where
  | node (data : ItemData) (children : List Item)

/-- The state of the item tree traversal (`TraversalState.__init__`), fields in
source order. -/
structure TraversalState where
  remove_labels : List ItemData
  add_labels : List ItemData
  found_next_action : Bool
  next_action_label_id : Option Nat
deriving DecidableEq, Repr

/-- `TraversalState.clone`: same label id and found flag, empty accumulation
lists. -/
def TraversalState.clone (s : TraversalState) : TraversalState :=
  { remove_labels := []
    add_labels := []
    found_next_action := s.found_next_action
    next_action_label_id := s.next_action_label_id }

/-- `TraversalState.merge`: OR the found flag, concatenate the lists. -/
def TraversalState.merge (s other : TraversalState) : TraversalState :=
  { s with
    found_next_action := s.found_next_action || other.found_next_action
    remove_labels := s.remove_labels ++ other.remove_labels
    add_labels := s.add_labels ++ other.add_labels }

/-- Python `str.endswith`: suffix test on the underlying character list (the
library `String.endsWith` does not reduce inside the kernel, so the embedding
uses the character-list formulation). -/
def strEndsWith (s suffix : String) : Bool := suffix.data.isSuffixOf s.data

/-- Python `state.next_action_label_id in self.labels`: membership of the
(possibly unresolved) marker id in an item's label list; `None` is never a
member of a list of ids. -/
def labelHas (labels : List Nat) : Option Nat → Bool
  | some x => labels.contains x
  | none => false

/-- `Item.IsSequential`: an item is sequential unless its content ends in `=`. -/
def Item.IsSequential : Item → Bool
  | .node d _ => !(strEndsWith d.content "=")

/-- `Item.IsParallel`: an item is parallel when its content ends in `=`. -/
def Item.IsParallel : Item → Bool
  | .node d _ => strEndsWith d.content "="

/-- Lines 68-78 of `Item.GetItemMods`: the self-evaluation step run after the
children have been traversed. -/
def selfMods (up : Bool) (d : ItemData) (state : TraversalState) : TraversalState :=
  if !state.found_next_action && !d.checked then
    let state := { state with found_next_action := true }
    if up && d.priority != 4 then
      { state with add_labels := state.add_labels ++ [d] }
    else if !up && !(labelHas d.labels state.next_action_label_id) then
      { state with add_labels := state.add_labels ++ [d] }
    else state
  else
    if up && d.priority == 4 then
      { state with remove_labels := state.remove_labels ++ [d] }
    else if !up && labelHas d.labels state.next_action_label_id then
      { state with remove_labels := state.remove_labels ++ [d] }
    else state

mutual

/-- `Item.GetItemMods`: traverse the children according to the node's
sequential/parallel classification, then evaluate the node itself. -/
def Item.GetItemMods (up : Bool) : Item → TraversalState → TraversalState
  | .node d cs, state =>
    let state :=
      if (Item.node d cs).IsSequential then seqChildMods up cs state
      else if (Item.node d cs).IsParallel then parChildMods up state.clone cs state
      else state
    selfMods up d state
termination_by structural i => i

/-- `Item._SequentialItemMods`: thread the same state through every child. -/
def seqChildMods (up : Bool) : List Item → TraversalState → TraversalState
  | [], state => state
  | c :: cs, state => seqChildMods up cs (Item.GetItemMods up c state)

/-- `Item._ParallelItemMods`: each child runs on a clone of the frozen state;
results are merged back in order. -/
def parChildMods (up : Bool) (frozen : TraversalState) :
    List Item → TraversalState → TraversalState
  | [], state => state
  | c :: cs, state =>
    parChildMods up frozen cs (state.merge (Item.GetItemMods up c frozen.clone))

end

mutual

/-- `Item.GetLabelRemovalMods`: in label mode, record this item for label
removal when it carries the marker, then recurse into the children.  In
priority mode the method returns immediately. -/
def Item.GetLabelRemovalMods (up : Bool) : Item → TraversalState → TraversalState
  | .node d cs, state =>
    if up then state
    else
      let state :=
        if labelHas d.labels state.next_action_label_id then
          { state with remove_labels := state.remove_labels ++ [d] }
        else state
      remChildMods up cs state

/-- The `for item in self.children: item.GetLabelRemovalMods(state)` loop. -/
def remChildMods (up : Bool) : List Item → TraversalState → TraversalState
  | [], state => state
  | c :: cs, state => remChildMods up cs (Item.GetLabelRemovalMods up c state)

end

/-- A project of the local mirror.  `unsorted_items` is the id-keyed dict of
flat records (an association list keyed by `ItemRec.id`); `children` is the
tree built by `BuildItemTree`.  `content` mirrors `self.content = name`. -/
structure Project where
  name : String
  content : String
  project_id : Nat
  indent : Nat
  is_archived : Bool
  is_deleted : Bool
  last_updated : Nat
  unsorted_items : List ItemRec
  children : List Item

/-- A project record of a full or partial payload.  Real payloads key projects
by `id`; the optional `project_id` field models the key the deletion branch of
`TodoistData.UpdateChangedData` reads (missing in real payloads). -/
structure ProjectRec where
  id : Nat
  name : String
  last_updated : Nat
  is_archived : Nat
  is_deleted : Nat
  project_id : Option Nat
deriving DecidableEq, Repr

/-- `Project.__init__` (items and children start empty; indent is 0). -/
def Project.ofRec (r : ProjectRec) : Project :=
  { name := r.name
    content := r.name
    project_id := r.id
    indent := 0
    is_archived := r.is_archived == 1
    is_deleted := r.is_deleted == 1
    last_updated := r.last_updated
    unsorted_items := []
    children := [] }

/-- `Project.UpdateChangedData`: refresh name and version marker. -/
def Project.UpdateChangedData (p : Project) (r : ProjectRec) : Project :=
  { p with name := r.name, last_updated := r.last_updated }

/-- `Project.IsSequential`: name ends in `--`. -/
def Project.IsSequential (p : Project) : Bool := strEndsWith p.name "--"

/-- `Project.IsParallel`: name ends in `=`. -/
def Project.IsParallel (p : Project) : Bool := strEndsWith p.name "="

/-- `Project.GetItemMods`: dispatch on the project's classification; a project
with neither suffix strips labels from its whole forest. -/
def Project.GetItemMods (up : Bool) (p : Project) (state : TraversalState) :
    TraversalState :=
  if p.IsSequential then seqChildMods up p.children state
  else if p.IsParallel then parChildMods up state.clone p.children state
  else remChildMods up p.children state

/-- `Project.AddItem`: dict assignment `unsorted_items[item['id']] = item`
(replace the entry with this key, or append a new one). -/
def Project.AddItem (p : Project) (r : ItemRec) : Project :=
  if p.unsorted_items.any (fun x => x.id == r.id) then
    { p with unsorted_items := p.unsorted_items.map (fun x => if x.id == r.id then r else x) }
  else { p with unsorted_items := p.unsorted_items ++ [r] }

/-- `Project.DelItem`: dict deletion `del unsorted_items[item['id']]`; a
missing key raises `KeyError`, modelled by `none`. -/
def Project.DelItem (p : Project) (r : ItemRec) : Option Project :=
  if p.unsorted_items.any (fun x => x.id == r.id) then
    some { p with unsorted_items := p.unsorted_items.filter (fun x => !(x.id == r.id)) }
  else none

/-- Stable insertion of a record into a list sorted by `item_order`. -/
def insertByOrder (r : ItemRec) : List ItemRec → List ItemRec
  | [] => [r]
  | x :: xs => if r.item_order ≤ x.item_order then r :: x :: xs else x :: insertByOrder r xs

/-- The `sorted(self.unsorted_items.values(), key=item_order)` call: a stable
sort by `item_order`. -/
def sortByOrder : List ItemRec → List ItemRec
  | [] => []
  | x :: xs => insertByOrder x (sortByOrder xs)

/-- An open node during `BuildItemTree`: its payload and the children attached
so far.  The Python loop mutates `children` lists in place; the functional
embedding keeps the chain from the current `parent_item` up to the project
root as a stack of such frames. -/
structure BFrame where
  data : ItemData
  done : List Item

/-- The loop state of `BuildItemTree`: children already attached directly to
the project root, the stack of open frames (current parent first), and the
indent of `previous_item` (initially the project's own indent). -/
structure BState where
  rootChildren : List Item
  frames : List BFrame
  prevIndent : Nat

mutual

/-- The `while item.indent <= parent_item.indent: parent_item =
parent_item.parent` loop.  Reaching the project root with the condition still
true dereferences the root's missing `parent` attribute (`AttributeError`),
modelled by `none`. -/
def climbTo (rootIndent ind : Nat) : List BFrame → List Item → Option (List Item × List BFrame)
  | [], rootChildren =>
    if ind ≤ rootIndent then none else some (rootChildren, [])
  | f :: fs, rootChildren =>
    if ind ≤ f.data.indent then
      attachAndClimb rootIndent ind (Item.node f.data f.done) fs rootChildren
    else some (rootChildren, f :: fs)

/-- Closing an open frame attaches the finished node to the next frame down
(or to the project root) and continues the climb from there. -/
def attachAndClimb (rootIndent ind : Nat) (child : Item) :
    List BFrame → List Item → Option (List Item × List BFrame)
  | [], rootChildren =>
    if ind ≤ rootIndent then none else some (rootChildren ++ [child], [])
  | g :: gs, rootChildren =>
    let done := g.done ++ [child]
    if ind ≤ g.data.indent then
      attachAndClimb rootIndent ind (Item.node g.data done) gs rootChildren
    else some (rootChildren, ⟨g.data, done⟩ :: gs)

end

/-- The `if item.indent > previous_item.indent: parent_item = previous_item`
step: the most recently attached item (always the last child of the current
parent) becomes an open frame.  When nothing has been attached yet,
`previous_item` is the project root, which is already the parent. -/
def pushParent (st : BState) : BState :=
  match st.frames with
  | f :: fs =>
    match f.done.getLast? with
    | some (Item.node cd ccs) =>
      { st with frames := ⟨cd, ccs⟩ :: ⟨f.data, f.done.dropLast⟩ :: fs }
    | none => st
  | [] =>
    match st.rootChildren.getLast? with
    | some (Item.node cd ccs) =>
      { st with rootChildren := st.rootChildren.dropLast, frames := [⟨cd, ccs⟩] }
    | none => st

/-- One iteration of the `for item_dict in sorted_items` loop of
`BuildItemTree`. -/
def buildStep (rootIndent : Nat) (st : BState) (r : ItemRec) : Option BState :=
  let item := ItemData.ofRec r
  let st := if st.prevIndent < item.indent then pushParent st else st
  match climbTo rootIndent item.indent st.frames st.rootChildren with
  | none => none
  | some (rootChildren, frames) =>
    match frames with
    | [] => some ⟨rootChildren ++ [Item.node item []], [], item.indent⟩
    | f :: fs => some ⟨rootChildren, ⟨f.data, f.done ++ [Item.node item []]⟩ :: fs, item.indent⟩

/-- The whole `for` loop of `BuildItemTree`. -/
def buildFold (rootIndent : Nat) : List ItemRec → BState → Option BState
  | [], st => some st
  | r :: rs, st =>
    match buildStep rootIndent st r with
    | none => none
    | some st' => buildFold rootIndent rs st'

/-- Fold a finished node into the frames below it (attachment that the Python
version performed eagerly by mutating `children` in place). -/
def closeDown (child : Item) : List BFrame → List Item → List Item
  | [], rootChildren => rootChildren ++ [child]
  | g :: gs, rootChildren => closeDown (Item.node g.data (g.done ++ [child])) gs rootChildren

/-- Close every remaining open frame at the end of the loop. -/
def closeAll : List BFrame → List Item → List Item
  | [], rootChildren => rootChildren
  | f :: fs, rootChildren => closeDown (Item.node f.data f.done) fs rootChildren

/-- `Project.BuildItemTree`: sort the flat records by `item_order` and rebuild
the tree of children from scratch. -/
def Project.BuildItemTree (p : Project) : Option Project :=
  match buildFold p.indent (sortByOrder p.unsorted_items) ⟨[], [], p.indent⟩ with
  | none => none
  | some st => some { p with children := closeAll st.frames st.rootChildren }

/-- The label the program manages. -/
def NEXT_ACTION_LABEL : String := "next_action"

/-- The local mirror held by `TodoistData`: the cached marker identity
(`_next_action_id`), the id-keyed project map (an association list in
insertion order), and the sync cursor. -/
structure TodoistData where
  next_action_id : Option Nat
  projects : List Project
  seq_no : Nat

/-- Dict lookup in `self._projects`. -/
def lookupProject (ps : List Project) (pid : Nat) : Option Project :=
  ps.find? (fun p => p.project_id == pid)

/-- Dict assignment `self._projects[id] = project` for an existing key. -/
def setProject (ps : List Project) (q : Project) : List Project :=
  ps.map (fun p => if p.project_id == q.project_id then q else p)

/-- A mutation operation produced by `GetProjectMods`
(`{'type': ..., 'timestamp': ..., 'args': {...}}`). -/
inductive SyncMod where
  | label_register (timestamp : Nat) (temp_id : Nat) (name : String)
  | item_update_labels (timestamp : Nat) (id : Nat) (labels : List Nat)
  | item_update_priority (timestamp : Nat) (id : Nat) (priority : Nat)
deriving DecidableEq, Repr

/-- `item.labels.append(next_action_id)` (no-op on an unresolved id, which the
guarded code paths never pass here). -/
def labelAppend (labels : List Nat) : Option Nat → List Nat
  | some x => labels ++ [x]
  | none => labels

/-- `item.labels.remove(next_action_id)`: drop the first occurrence. -/
def labelErase (labels : List Nat) : Option Nat → List Nat
  | some x => labels.erase x
  | none => labels

/-- Effect of the add loop of `GetProjectMods` on a flat record: in priority
mode the record's priority is assigned 4 explicitly; in label mode the record
shares its labels list with the tree item, so the append lands here too. -/
def markAddRec (up : Bool) (nid : Option Nat) (r : ItemRec) : ItemRec :=
  if up then { r with priority := 4 } else { r with labels := labelAppend r.labels nid }

/-- Effect of the remove loop of `GetProjectMods` on a flat record. -/
def markRemoveRec (up : Bool) (nid : Option Nat) (r : ItemRec) : ItemRec :=
  if up then { r with priority := 1 } else { r with labels := labelErase r.labels nid }

/-- The `for item in state.add_labels` loop of `GetProjectMods`: emit one
`item_update` per decision (payload read back from the mutated item) and apply
the change to the flat record with the same id. -/
def applyAddLoop (up : Bool) (now : Nat) (nid : Option Nat) :
    List ItemData → List ItemRec × List SyncMod → List ItemRec × List SyncMod
  | [], acc => acc
  | d :: ds, (recs, mods) =>
    let m := if up then SyncMod.item_update_priority now d.item_id 4
             else SyncMod.item_update_labels now d.item_id (labelAppend d.labels nid)
    let recs := recs.map (fun r => if r.id == d.item_id then markAddRec up nid r else r)
    applyAddLoop up now nid ds (recs, mods ++ [m])

/-- The `for item in state.remove_labels` loop of `GetProjectMods`. -/
def applyRemoveLoop (up : Bool) (now : Nat) (nid : Option Nat) :
    List ItemData → List ItemRec × List SyncMod → List ItemRec × List SyncMod
  | [], acc => acc
  | d :: ds, (recs, mods) =>
    let m := if up then SyncMod.item_update_priority now d.item_id 1
             else SyncMod.item_update_labels now d.item_id (labelErase d.labels nid)
    let recs := recs.map (fun r => if r.id == d.item_id then markRemoveRec up nid r else r)
    applyRemoveLoop up now nid ds (recs, mods ++ [m])

mutual

/-- The found-flag dynamics of the traversal: the resulting
`found_next_action` after `Item.GetItemMods`, which depends only on the tree
shape and the checked flags, never on labels or priorities. -/
def foundItem : Item → Bool → Bool
  | .node d cs, f =>
    (if (Item.node d cs).IsSequential then foundSeq cs f
     else if (Item.node d cs).IsParallel then foundPar f cs f
     else f) || !d.checked
termination_by structural i => i

/-- Found-flag dynamics of a sequential child list (flag threaded through). -/
def foundSeq : List Item → Bool → Bool
  | [], f => f
  | c :: cs, f => foundSeq cs (foundItem c f)

/-- Found-flag dynamics of a parallel child list: every child starts from the
frozen flag, results are OR-ed into the accumulator. -/
def foundPar (frozen : Bool) : List Item → Bool → Bool
  | [], acc => acc
  | c :: cs, acc => foundPar frozen cs (acc || foundItem c frozen)

end

/-- The decision the self-evaluation step takes for one node, given the found
flag after its children: the (at most one) entry it appends to the add list
and to the remove list. -/
def selfDec (up : Bool) (nid : Option Nat) (d : ItemData) (f : Bool) :
    List ItemData × List ItemData :=
  if !f && !d.checked then
    (if up && d.priority != 4 then [d]
     else if !up && !(labelHas d.labels nid) then [d]
     else [], [])
  else
    ([], if up && d.priority == 4 then [d]
         else if !up && labelHas d.labels nid then [d]
         else [])

mutual

/-- The new entries `Item.GetItemMods` appends to the add list (first
component) and remove list (second component), as a function of the subtree
and the incoming found flag. -/
def modsF (up : Bool) (nid : Option Nat) : Item → Bool → List ItemData × List ItemData
  | .node d cs, f =>
    let child :=
      if (Item.node d cs).IsSequential then modsSeq up nid cs f
      else if (Item.node d cs).IsParallel then modsPar up nid cs f
      else ([], [])
    let f' :=
      if (Item.node d cs).IsSequential then foundSeq cs f
      else if (Item.node d cs).IsParallel then foundPar f cs f
      else f
    (child.1 ++ (selfDec up nid d f').1, child.2 ++ (selfDec up nid d f').2)
termination_by structural i => i

/-- New traversal entries of a sequential child list. -/
def modsSeq (up : Bool) (nid : Option Nat) : List Item → Bool → List ItemData × List ItemData
  | [], _ => ([], [])
  | c :: cs, f =>
    ((modsF up nid c f).1 ++ (modsSeq up nid cs (foundItem c f)).1,
     (modsF up nid c f).2 ++ (modsSeq up nid cs (foundItem c f)).2)

/-- New traversal entries of a parallel child list (every child evaluated from
the same frozen flag). -/
def modsPar (up : Bool) (nid : Option Nat) : List Item → Bool → List ItemData × List ItemData
  | [], _ => ([], [])
  | c :: cs, f =>
    ((modsF up nid c f).1 ++ (modsPar up nid cs f).1,
     (modsF up nid c f).2 ++ (modsPar up nid cs f).2)

end

/-- Effect of the mutation loops of `GetProjectMods` on the tree node that
took the corresponding decision. -/
def applySelf (up : Bool) (nid : Option Nat) (d : ItemData) (f : Bool) : ItemData :=
  if !f && !d.checked then
    if up && d.priority != 4 then { d with priority := 4 }
    else if !up && !(labelHas d.labels nid) then { d with labels := labelAppend d.labels nid }
    else d
  else
    if up && d.priority == 4 then { d with priority := 1 }
    else if !up && labelHas d.labels nid then { d with labels := labelErase d.labels nid }
    else d

mutual

/-- The in-place mutation `GetProjectMods` performs on a traversed subtree:
the source mutates the nodes referenced from `state.add_labels` /
`state.remove_labels`, which are exactly the nodes whose own decision fired,
so the effect is the decision applied at every node. -/
def applyItem (up : Bool) (nid : Option Nat) : Item → Bool → Item
  | .node d cs, f =>
    let cs' :=
      if (Item.node d cs).IsSequential then applySeq up nid cs f
      else if (Item.node d cs).IsParallel then applyPar up nid cs f
      else cs
    let f' :=
      if (Item.node d cs).IsSequential then foundSeq cs f
      else if (Item.node d cs).IsParallel then foundPar f cs f
      else f
    Item.node (applySelf up nid d f') cs'
termination_by structural i => i

/-- In-place mutation across a sequential child list. -/
def applySeq (up : Bool) (nid : Option Nat) : List Item → Bool → List Item
  | [], _ => []
  | c :: cs, f => applyItem up nid c f :: applySeq up nid cs (foundItem c f)

/-- In-place mutation across a parallel child list. -/
def applyPar (up : Bool) (nid : Option Nat) : List Item → Bool → List Item
  | [], _ => []
  | c :: cs, f => applyItem up nid c f :: applyPar up nid cs f

end

mutual

/-- The in-place mutation `GetProjectMods` performs inside a none-mode
project: every node referenced from the removal list loses the marker label;
in priority mode `GetLabelRemovalMods` collects nothing, so nothing changes. -/
def stripItem (up : Bool) (nid : Option Nat) : Item → Item
  | .node d cs =>
    if up then Item.node d cs
    else
      Item.node
        (if labelHas d.labels nid then { d with labels := labelErase d.labels nid } else d)
        (stripList up nid cs)
termination_by structural i => i

/-- None-mode in-place mutation across a child list. -/
def stripList (up : Bool) (nid : Option Nat) : List Item → List Item
  | [] => []
  | c :: cs => stripItem up nid c :: stripList up nid cs

end

/-- The tree-side effect of one `GetProjectMods` cycle on a project's
children. -/
def Project.applyCycle (up : Bool) (nid : Option Nat) (p : Project) : List Item :=
  if p.IsSequential then applySeq up nid p.children false
  else if p.IsParallel then applyPar up nid p.children false
  else stripList up nid p.children

/-- One project's slice of `TodoistData.GetProjectMods`: run the traversal
from a fresh state, emit one `item_update` per decision, and apply every
decision both to the tree items and to the flat records. -/
def Project.runMods (up : Bool) (now : Nat) (nid : Option Nat) (p : Project) :
    Project × List SyncMod :=
  let state := Project.GetItemMods up p ⟨[], [], false, nid⟩
  let acc := applyAddLoop up now nid state.add_labels (p.unsorted_items, [])
  let acc := applyRemoveLoop up now nid state.remove_labels acc
  ({ p with children := Project.applyCycle up nid p, unsorted_items := acc.1 }, acc.2)

/-- The `for project in self._projects.itervalues()` loop of
`GetProjectMods`. -/
def projectsLoop (up : Bool) (now : Nat) (nid : Option Nat) :
    List Project → List Project × List SyncMod
  | [] => ([], [])
  | p :: ps =>
    let a := Project.runMods up now nid p
    let b := projectsLoop up now nid ps
    (a.1 :: b.1, a.2 ++ b.2)

/-- `TodoistData.GetProjectMods`: in label mode with no resolved label id,
register the label under a temporary id and emit nothing else; otherwise run
every project and apply the decisions to the local mirror.  `now` stands for
`int(time.time())`; the temporary string id `'$%d' % now` is modelled by its
numeric payload. -/
def TodoistData.GetProjectMods (up : Bool) (now : Nat) (td : TodoistData) :
    TodoistData × List SyncMod :=
  if td.next_action_id == none && !up then
    ({ td with next_action_id := some now },
     [SyncMod.label_register now now NEXT_ACTION_LABEL])
  else
    let a := projectsLoop up now td.next_action_id td.projects
    ({ td with projects := a.1 }, a.2)

/-- A partial `syncAndGetUpdated` response: optional cursor, temp-id mapping,
changed projects, changed items. -/
structure Delta where
  seq_no : Option Nat
  temp_id_mapping : Option (List (Nat × Nat))
  projects : Option (List ProjectRec)
  items : Option (List ItemRec)

/-- `changed_data['TempIdMapping']` lookup. -/
def assocLookup (m : List (Nat × Nat)) (k : Nat) : Option Nat :=
  (m.find? (fun e => e.1 == k)).map (fun e => e.2)

/-- The `for project in changed_data['Projects']` loop: deletion reads the
(absent in real payloads) `project_id` key and `del`s it — both lookups can
raise `KeyError` — and the following not-`elif` upsert test runs regardless. -/
def updProjects : List ProjectRec → List Project → Option (List Project)
  | [], ps => some ps
  | r :: rs, ps =>
    let afterDel : Option (List Project) :=
      if r.is_deleted == 1 then
        match r.project_id with
        | none => none
        | some k =>
          if (lookupProject ps k).isSome then
            some (ps.filter (fun p => !(p.project_id == k)))
          else none
      else some ps
    match afterDel with
    | none => none
    | some ps' =>
      match lookupProject ps' r.id with
      | some p => updProjects rs (setProject ps' (p.UpdateChangedData r))
      | none => updProjects rs (ps' ++ [Project.ofRec r])

/-- The `for item in changed_data['Items']` loop: deletion of an unknown item
id (or any item in an unknown project) raises `KeyError`; anything else is a
dict upsert via `AddItem`. -/
def updItems : List ItemRec → List Project → Option (List Project)
  | [], ps => some ps
  | r :: rs, ps =>
    match lookupProject ps r.project_id with
    | none => none
    | some p =>
      if r.is_deleted == 1 then
        match p.DelItem r with
        | none => none
        | some p' => updItems rs (setProject ps p')
      else updItems rs (setProject ps (p.AddItem r))

/-- The final `for project in self._projects.itervalues(): BuildItemTree()`
loop. -/
def rebuildAll : List Project → Option (List Project)
  | [] => some []
  | p :: ps =>
    match p.BuildItemTree with
    | none => none
    | some p' => (rebuildAll ps).map (fun l => p' :: l)

/-- `TodoistData.UpdateChangedData`: cursor, temp-id remap, project changes,
item changes, then a full rebuild of every project tree. -/
def TodoistData.UpdateChangedData (td : TodoistData) (cd : Delta) : Option TodoistData :=
  let td := match cd.seq_no with
    | some n => { td with seq_no := n }
    | none => td
  let td := match cd.temp_id_mapping with
    | some m =>
      match td.next_action_id with
      | some x =>
        match assocLookup m x with
        | some y => { td with next_action_id := some y }
        | none => td
      | none => td
    | none => td
  let ps₁ := match cd.projects with
    | some rs => updProjects rs td.projects
    | none => some td.projects
  match ps₁ with
  | none => none
  | some l₁ =>
    let ps₂ := match cd.items with
      | some rs => updItems rs l₁
      | none => some l₁
    match ps₂ with
    | none => none
    | some l₂ =>
      match rebuildAll l₂ with
      | none => none
      | some l₃ => some { td with projects := l₃ }

mutual

/-- All node payloads of a subtree in preorder (the order
`GetLabelRemovalMods` visits them). -/
def itemDatas : Item → List ItemData
  | .node d cs => d :: itemDatasL cs
termination_by structural i => i

/-- All node payloads of a forest in preorder. -/
def itemDatasL : List Item → List ItemData
  | [] => []
  | c :: cs => itemDatas c ++ itemDatasL cs

end

/-- The statement that `Item.GetItemMods` on a subtree appends exactly the
`modsF` decisions and updates the found flag by `foundItem`. -/
def ItemChar (up : Bool) (i : Item) : Prop :=
  ∀ s : TraversalState,
    Item.GetItemMods up i s =
      ⟨s.remove_labels ++ (modsF up s.next_action_label_id i s.found_next_action).2,
       s.add_labels ++ (modsF up s.next_action_label_id i s.found_next_action).1,
       foundItem i s.found_next_action,
       s.next_action_label_id⟩

/-- The corresponding statement for the two child-list loops. -/
def SeqParChar (up : Bool) (cs : List Item) : Prop :=
  (∀ s : TraversalState,
    seqChildMods up cs s =
      ⟨s.remove_labels ++ (modsSeq up s.next_action_label_id cs s.found_next_action).2,
       s.add_labels ++ (modsSeq up s.next_action_label_id cs s.found_next_action).1,
       foundSeq cs s.found_next_action,
       s.next_action_label_id⟩)
  ∧ (∀ frozen s : TraversalState,
      frozen.next_action_label_id = s.next_action_label_id →
      parChildMods up frozen cs s =
        ⟨s.remove_labels ++ (modsPar up s.next_action_label_id cs frozen.found_next_action).2,
         s.add_labels ++ (modsPar up s.next_action_label_id cs frozen.found_next_action).1,
         foundPar frozen.found_next_action cs s.found_next_action,
         s.next_action_label_id⟩)

/-- Whether an item currently carries the actionable marker (priority 4 in
priority mode, the next-action label in label mode). -/
def hasMarker (up : Bool) (nid : Option Nat) (d : ItemData) : Bool :=
  if up then d.priority == 4 else labelHas d.labels nid

/-- Statement: applying a cycle's decisions to a subtree preserves its
found-flag dynamics. -/
def FoundPresI (up : Bool) (nid : Option Nat) (i : Item) : Prop :=
  ∀ f, foundItem (applyItem up nid i f) f = foundItem i f

/-- Forest version of `FoundPresI`, for both child-list walks. -/
def FoundPresL (up : Bool) (nid : Option Nat) (cs : List Item) : Prop :=
  (∀ f, foundSeq (applySeq up nid cs f) f = foundSeq cs f) ∧
  (∀ f0 acc, foundPar f0 (applyPar up nid cs f0) acc = foundPar f0 cs acc)

/-- Well-formedness needed for local idempotence: in label mode the resolved
marker id occurs at most once in each labels list (the spec treats `labels`
as a set); in priority mode nothing is needed. -/
def labelsOk (up : Bool) (nid : Option Nat) (ds : List ItemData) : Prop :=
  up = true ∨ ∃ x, nid = some x ∧ ∀ d ∈ ds, d.labels.count x ≤ 1

/-- Statement: a subtree that has received its decisions yields no further
decisions. -/
def VanishI (up : Bool) (nid : Option Nat) (i : Item) : Prop :=
  labelsOk up nid (itemDatas i) →
    ∀ f, modsF up nid (applyItem up nid i f) f = ([], [])

/-- Forest version of `VanishI`. -/
def VanishL (up : Bool) (nid : Option Nat) (cs : List Item) : Prop :=
  labelsOk up nid (itemDatasL cs) →
    (∀ f, modsSeq up nid (applySeq up nid cs f) f = ([], [])) ∧
    (∀ f0, modsPar up nid (applyPar up nid cs f0) f0 = ([], []))

/-- Flat record for the C8 example (indents as the claim gives them). -/
def mkRec8 (i : Nat) (content : String) (indent : Nat) (order : Nat) : ItemRec :=
  { id := i, project_id := 1, content := content, indent := indent,
    item_order := order, checked := 0, labels := [], priority := 1, is_deleted := 0 }

/-- The claim's five-record input, indents 0,1,1,2,0. -/
def p8claim : Project :=
  { name := "P", content := "P", project_id := 1, indent := 0,
    is_archived := false, is_deleted := false, last_updated := 0,
    unsorted_items :=
      [mkRec8 1 "A" 0 1, mkRec8 2 "B" 1 2, mkRec8 3 "C" 1 3,
       mkRec8 4 "D" 2 4, mkRec8 5 "E" 0 5],
    children := [] }

/-- The same forest with one-based indents 1,2,2,3,1. -/
def p8fixed : Project :=
  { name := "P", content := "P", project_id := 1, indent := 0,
    is_archived := false, is_deleted := false, last_updated := 0,
    unsorted_items :=
      [mkRec8 1 "A" 1 1, mkRec8 2 "B" 2 2, mkRec8 3 "C" 2 3,
       mkRec8 4 "D" 3 4, mkRec8 5 "E" 1 5],
    children := [] }

/-- A mirror with one project and no items. -/
def tdC7 : TodoistData :=
  { next_action_id := some 5,
    projects :=
      [{ name := "Q", content := "Q", project_id := 3, indent := 0,
         is_archived := false, is_deleted := false, last_updated := 0,
         unsorted_items := [], children := [] }],
    seq_no := 0 }

/-- A delta deleting an item id the mirror has never seen. -/
def deltaC7 : Delta :=
  { seq_no := none, temp_id_mapping := none, projects := none,
    items := some
      [{ id := 99, project_id := 3, content := "gone", indent := 1,
         item_order := 1, checked := 0, labels := [], priority := 1,
         is_deleted := 1 }] }

/-- Statement: per id, the add and remove decisions of a subtree together
occur no more often than the id occurs among the subtree's payloads. -/
def CountBndI (up : Bool) (nid : Option Nat) (i : Item) : Prop :=
  ∀ f y, ((modsF up nid i f).1.map ItemData.item_id).count y +
      ((modsF up nid i f).2.map ItemData.item_id).count y ≤
    ((itemDatas i).map ItemData.item_id).count y

/-- Forest version of `CountBndI`. -/
def CountBndL (up : Bool) (nid : Option Nat) (cs : List Item) : Prop :=
  (∀ f y, ((modsSeq up nid cs f).1.map ItemData.item_id).count y +
      ((modsSeq up nid cs f).2.map ItemData.item_id).count y ≤
    ((itemDatasL cs).map ItemData.item_id).count y) ∧
  (∀ f y, ((modsPar up nid cs f).1.map ItemData.item_id).count y +
      ((modsPar up nid cs f).2.map ItemData.item_id).count y ≤
    ((itemDatasL cs).map ItemData.item_id).count y)

/-- Payloads held by the open frames of the builder. -/
def framesDatas : List BFrame → List ItemData
  | [] => []
  | f :: fs => (f.data :: itemDatasL f.done) ++ framesDatas fs

/-- All payloads in a builder state. -/
def stDatas (rc : List Item) (frames : List BFrame) : List ItemData :=
  itemDatasL rc ++ framesDatas frames

def c1d1 : ItemData := ⟨false, "Milk", 1, 11, [], 1⟩

def c1d2 : ItemData := ⟨false, "Eggs", 1, 12, [], 1⟩

def c1proj : Project :=
  { name := "Groceries--", content := "Groceries--", project_id := 1, indent := 0,
    is_archived := false, is_deleted := false, last_updated := 0,
    unsorted_items := [], children := [Item.node c1d1 [], Item.node c1d2 []] }

def c2proj : Project :=
  { name := "Chores", content := "Chores", project_id := 2, indent := 0,
    is_archived := false, is_deleted := false, last_updated := 0,
    unsorted_items := [], children := [Item.node ⟨true, "Done", 1, 31, [7], 4⟩ []] }

def c2prioData : ItemData := ⟨false, "Urgent", 1, 32, [], 4⟩

def c2prioProj : Project :=
  { name := "Chores2", content := "Chores2", project_id := 2, indent := 0,
    is_archived := false, is_deleted := false, last_updated := 0,
    unsorted_items := [], children := [Item.node c2prioData []] }

def c3td : TodoistData := { next_action_id := none, projects := [], seq_no := 0 }

def c5data : ItemData := ⟨false, "Par=", 1, 50, [], 1⟩

def c5kids : List Item :=
  [Item.node ⟨false, "a", 2, 51, [], 1⟩ [], Item.node ⟨false, "b", 2, 52, [], 1⟩ []]

def c6proj : Project :=
  { name := "Inbox--", content := "Inbox--", project_id := 4, indent := 0,
    is_archived := false, is_deleted := false, last_updated := 0,
    unsorted_items :=
      [{ id := 41, project_id := 4, content := "First", indent := 1, item_order := 1,
         checked := 0, labels := [], priority := 1, is_deleted := 0 },
       { id := 42, project_id := 4, content := "Second", indent := 1, item_order := 2,
         checked := 0, labels := [7], priority := 1, is_deleted := 0 }],
    children :=
      [Item.node ⟨false, "First", 1, 41, [], 1⟩ [],
       Item.node ⟨false, "Second", 1, 42, [7], 1⟩ []] }

def c6td : TodoistData := { next_action_id := some 7, projects := [c6proj], seq_no := 0 }

def c7rec : ProjectRec :=
  { id := 8, name := "New", last_updated := 3, is_archived := 0, is_deleted := 0,
    project_id := none }

def r10 : ItemRec :=
  { id := 61, project_id := 6, content := "Solo", indent := 1, item_order := 1,
    checked := 0, labels := [], priority := 1, is_deleted := 0 }

def p10 : Project :=
  { name := "Write--", content := "Write--", project_id := 6, indent := 0,
    is_archived := false, is_deleted := false, last_updated := 0,
    unsorted_items := [r10], children := [Item.node (ItemData.ofRec r10) []] }

def q10 : Project :=
  { name := "Write--", content := "Write--", project_id := 6, indent := 0,
    is_archived := false, is_deleted := false, last_updated := 0,
    unsorted_items := [{ r10 with labels := [7] }],
    children := [Item.node ⟨false, "Solo", 1, 61, [7], 1⟩ []] }

/-- Mutual induction for `Item` and `List Item`. -/
theorem item_ind {P : Item → Prop} {Q : List Item → Prop}
    (hnode : ∀ d cs, Q cs → P (Item.node d cs))
    (hnil : Q [])
    (hcons : ∀ c cs, P c → Q cs → Q (c :: cs)) :
    ∀ i, P i :=
  fun i => Item.rec hnode hnil hcons i

/-- Forest version of `item_ind`. -/
theorem itemList_ind {P : Item → Prop} {Q : List Item → Prop}
    (hnode : ∀ d cs, Q cs → P (Item.node d cs))
    (hnil : Q [])
    (hcons : ∀ c cs, P c → Q cs → Q (c :: cs)) :
    ∀ cs, Q cs :=
  fun cs => List.rec hnil
    (fun c cs' hq => hcons c cs' (item_ind hnode hnil hcons c) hq) cs

/-- `selfMods` in terms of the per-node decision `selfDec`. -/
theorem selfMods_eq (up : Bool) (d : ItemData) (s : TraversalState) :
    selfMods up d s =
      ⟨s.remove_labels ++ (selfDec up s.next_action_label_id d s.found_next_action).2,
       s.add_labels ++ (selfDec up s.next_action_label_id d s.found_next_action).1,
       s.found_next_action || !d.checked,
       s.next_action_label_id⟩ := by
  cases s with
  | mk rem add f nid =>
    simp only [selfMods, selfDec]
    cases f <;> cases hc : d.checked <;> cases up <;> simp <;> split <;> simp

theorem char_node (up : Bool) (d : ItemData) (cs : List Item)
    (h : SeqParChar up cs) : ItemChar up (Item.node d cs) := by
  intro s
  rw [Item.GetItemMods]
  by_cases hseq : (Item.node d cs).IsSequential = true
  · rw [if_pos hseq, h.1 s, selfMods_eq]
    simp only [modsF, foundItem, if_pos hseq]
    simp [List.append_assoc]
  · rw [if_neg hseq]
    by_cases hpar : (Item.node d cs).IsParallel = true
    · rw [if_pos hpar, h.2 s.clone s rfl, selfMods_eq]
      simp only [modsF, foundItem, if_neg hseq, if_pos hpar]
      simp [TraversalState.clone, List.append_assoc]
    · rw [if_neg hpar, selfMods_eq]
      simp only [modsF, foundItem, if_neg hseq, if_neg hpar]
      simp

theorem char_nil (up : Bool) : SeqParChar up [] := by
  constructor
  · intro s
    simp [seqChildMods, modsSeq, foundSeq]
  · intro frozen s h
    simp [parChildMods, modsPar, foundPar, h]

theorem char_cons (up : Bool) (c : Item) (cs : List Item)
    (hc : ItemChar up c) (h : SeqParChar up cs) : SeqParChar up (c :: cs) := by
  constructor
  · intro s
    rw [seqChildMods, hc s, h.1]
    simp only [modsSeq, foundSeq]
    simp [List.append_assoc]
  · intro frozen s hnid
    rw [parChildMods, hc frozen.clone]
    have h2 := h.2 frozen (s.merge
        ⟨frozen.clone.remove_labels ++ (modsF up frozen.clone.next_action_label_id c frozen.clone.found_next_action).2,
         frozen.clone.add_labels ++ (modsF up frozen.clone.next_action_label_id c frozen.clone.found_next_action).1,
         foundItem c frozen.clone.found_next_action,
         frozen.clone.next_action_label_id⟩)
      (by simp [TraversalState.merge, TraversalState.clone, hnid])
    rw [h2]
    simp only [modsPar, foundPar, TraversalState.merge, TraversalState.clone, hnid]
    simp [List.append_assoc]

/-- Characterization of the traversal: `GetItemMods` appends the `modsF`
decisions and transforms the found flag by `foundItem`. -/
theorem GetItemMods_char (up : Bool) : ∀ i, ItemChar up i :=
  item_ind (char_node up) (char_nil up) (char_cons up)

/-- Characterization of the child-list loops. -/
theorem childMods_char (up : Bool) : ∀ cs, SeqParChar up cs :=
  itemList_ind (char_node up) (char_nil up) (char_cons up)

/-- Items are classified two ways only: sequential is the exact complement of
parallel. -/
theorem isSequential_eq_not_isParallel (i : Item) :
    i.IsSequential = !i.IsParallel := by
  cases i with
  | node d cs => simp [Item.IsSequential, Item.IsParallel]

/-- A leaf contributes exactly its own decision. -/
theorem modsF_leaf (up : Bool) (nid : Option Nat) (d : ItemData) (f : Bool) :
    modsF up nid (Item.node d []) f = selfDec up nid d f := by
  rw [modsF]
  simp [modsSeq, modsPar, foundSeq, foundPar]

/-- Found-flag dynamics of a leaf. -/
theorem foundItem_leaf (d : ItemData) (f : Bool) :
    foundItem (Item.node d []) f = (f || !d.checked) := by
  rw [foundItem]
  simp [foundSeq, foundPar]

/-- `modsPar` lists are the concatenation of per-child contributions, each a
function of the child and the frozen flag alone. -/
theorem modsPar_join (up : Bool) (nid : Option Nat) (cs : List Item) (f : Bool) :
    modsPar up nid cs f =
      ((cs.map (fun c => (modsF up nid c f).1)).flatten,
       (cs.map (fun c => (modsF up nid c f).2)).flatten) := by
  induction cs with
  | nil => simp [modsPar]
  | cons c cs ih => simp [modsPar, ih]

/-- `foundPar` is the OR-fold of per-child found flags. -/
theorem foundPar_foldl (f0 : Bool) (cs : List Item) (acc : Bool) :
    foundPar f0 cs acc =
      (cs.map (fun c => foundItem c f0)).foldl (fun a b => a || b) acc := by
  induction cs generalizing acc with
  | nil => simp [foundPar]
  | cons c cs ih => simp [foundPar, ih]

/-- An unmarked node at an already-found (or checked) position decides
nothing. -/
theorem selfDec_true_unmarked (up : Bool) (nid : Option Nat) (d : ItemData)
    (h : hasMarker up nid d = false) : selfDec up nid d true = ([], []) := by
  simp only [hasMarker] at h
  cases up <;> simp_all [selfDec]

/-- An unchecked, unmarked node at a not-yet-found position adds itself. -/
theorem selfDec_false_fresh (up : Bool) (nid : Option Nat) (d : ItemData)
    (hc : d.checked = false) (h : hasMarker up nid d = false) :
    selfDec up nid d false = ([d], []) := by
  simp only [hasMarker] at h
  cases up <;> simp_all [selfDec]

/-- Over a list of unmarked leaves with the found flag already set, the
sequential walk decides nothing and keeps the flag. -/
theorem modsSeq_leaves_found (up : Bool) (nid : Option Nat) (rest : List ItemData)
    (h : ∀ d ∈ rest, hasMarker up nid d = false) :
    modsSeq up nid (rest.map (fun d => Item.node d [])) true = ([], []) ∧
      foundSeq (rest.map (fun d => Item.node d [])) true = true := by
  induction rest with
  | nil => simp [modsSeq, foundSeq]
  | cons d rest ih =>
    have hd := h d (by simp)
    have ih' := ih (fun x hx => h x (by simp [hx]))
    simp only [List.map_cons, modsSeq, foundSeq, foundItem_leaf, modsF_leaf,
      selfDec_true_unmarked up nid d hd, Bool.true_or]
    simp [ih'.1, ih'.2]

/-- Claim C1: in a sequential project holding a chain of N unchecked,
unmarked items, the traversal adds exactly the first item of the chain and
removes nothing. -/
theorem c1_sequential_chain (up : Bool) (nid : Option Nat) (p : Project)
    (r : ItemData) (rest : List ItemData)
    (hseq : p.IsSequential = true)
    (hch : p.children = (r :: rest).map (fun d => Item.node d []))
    (hunchecked : ∀ d ∈ r :: rest, d.checked = false)
    (hunmarked : ∀ d ∈ r :: rest, hasMarker up nid d = false) :
    Project.GetItemMods up p ⟨[], [], false, nid⟩ = ⟨[], [r], true, nid⟩ := by
  rw [Project.GetItemMods, if_pos hseq, hch]
  rw [(childMods_char up _).1 ⟨[], [], false, nid⟩]
  have hr := selfDec_false_fresh up nid r (hunchecked r (by simp)) (hunmarked r (by simp))
  have hrest := modsSeq_leaves_found up nid rest
    (fun x hx => hunmarked x (by simp [hx]))
  have hfr : foundItem (Item.node r []) false = true := by
    simp [foundItem_leaf, hunchecked r (by simp)]
  simp only [List.map_cons, modsSeq, foundSeq, modsF_leaf, hr, hfr]
  simp [hrest.1, hrest.2]

/-- Claim C5: on a parallel node, every child's decisions are a function of
the child subtree and the snapshot flag taken before any sibling ran; the
parent combines them by OR-ing found flags and concatenating the lists, then
evaluates itself. -/
theorem c5_parallel_snapshot (up : Bool) (d : ItemData) (cs : List Item)
    (s : TraversalState) (h : (Item.node d cs).IsParallel = true) :
    Item.GetItemMods up (Item.node d cs) s =
      selfMods up d
        ⟨s.remove_labels ++
           (cs.map (fun c => (modsF up s.next_action_label_id c s.found_next_action).2)).flatten,
         s.add_labels ++
           (cs.map (fun c => (modsF up s.next_action_label_id c s.found_next_action).1)).flatten,
         (cs.map (fun c => foundItem c s.found_next_action)).foldl
           (fun a b => a || b) s.found_next_action,
         s.next_action_label_id⟩ := by
  have hseq : (Item.node d cs).IsSequential = false := by
    rw [isSequential_eq_not_isParallel, h]; rfl
  rw [Item.GetItemMods]
  rw [if_neg (by simp [hseq]), if_pos h]
  rw [(childMods_char up cs).2 s.clone s rfl]
  rw [modsPar_join, foundPar_foldl]
  rfl

/-- Whatever the self-evaluation step adds is unchecked. -/
theorem selfDec_add_unchecked (up : Bool) (nid : Option Nat) (d : ItemData) (f : Bool)
    (x : ItemData) (hx : x ∈ (selfDec up nid d f).1) : x.checked = false := by
  simp only [selfDec] at hx
  split at hx
  · rename_i hcond
    have hd : d.checked = false := by
      cases hc : d.checked
      · rfl
      · simp [hc] at hcond
    split at hx
    · simp at hx; subst hx; exact hd
    · split at hx
      · simp at hx; subst hx; exact hd
      · simp at hx
  · simp at hx

/-- Everything `modsF` puts on the add side is unchecked. -/
theorem modsF_add_unchecked (up : Bool) (nid : Option Nat) :
    ∀ i : Item, ∀ f x, x ∈ (modsF up nid i f).1 → x.checked = false := by
  have key : ∀ i : Item, (∀ f x, x ∈ (modsF up nid i f).1 → x.checked = false) :=
    item_ind (P := fun i => ∀ f x, x ∈ (modsF up nid i f).1 → x.checked = false)
      (Q := fun cs => (∀ f x, x ∈ (modsSeq up nid cs f).1 → x.checked = false) ∧
            (∀ f x, x ∈ (modsPar up nid cs f).1 → x.checked = false))
      (fun d cs hq => by
        intro f x hx
        rw [modsF] at hx
        rcases List.mem_append.1 hx with hx | hx
        · split at hx
          · exact hq.1 f x hx
          · split at hx
            · exact hq.2 f x hx
            · simp at hx
        · exact selfDec_add_unchecked up nid d _ x hx)
      (by constructor <;> intro f x hx <;> simp [modsSeq, modsPar] at hx)
      (fun c cs hc hq => by
        constructor
        · intro f x hx
          simp only [modsSeq, List.mem_append] at hx
          rcases hx with hx | hx
          · exact hc f x hx
          · exact hq.1 _ x hx
        · intro f x hx
          simp only [modsPar, List.mem_append] at hx
          rcases hx with hx | hx
          · exact hc f x hx
          · exact hq.2 f x hx)
  exact key

/-- The same for the sequential and parallel child-list walks. -/
theorem modsSeqPar_add_unchecked (up : Bool) (nid : Option Nat) :
    ∀ cs : List Item, (∀ f x, x ∈ (modsSeq up nid cs f).1 → x.checked = false) ∧
      (∀ f x, x ∈ (modsPar up nid cs f).1 → x.checked = false) := by
  intro cs
  induction cs with
  | nil => constructor <;> intro f x hx <;> simp [modsSeq, modsPar] at hx
  | cons c cs ih =>
    constructor
    · intro f x hx
      simp only [modsSeq, List.mem_append] at hx
      rcases hx with hx | hx
      · exact modsF_add_unchecked up nid c f x hx
      · exact ih.1 _ x hx
    · intro f x hx
      simp only [modsPar, List.mem_append] at hx
      rcases hx with hx | hx
      · exact modsF_add_unchecked up nid c f x hx
      · exact ih.2 f x hx

/-- In priority mode `GetLabelRemovalMods` is an immediate return. -/
theorem getLabelRemovalMods_up (i : Item) (s : TraversalState) :
    Item.GetLabelRemovalMods true i s = s := by
  cases i with
  | node d cs => rw [Item.GetLabelRemovalMods]; simp

/-- In priority mode the none-mode child loop leaves the state unchanged. -/
theorem remChildMods_up (cs : List Item) (s : TraversalState) :
    remChildMods true cs s = s := by
  induction cs generalizing s with
  | nil => rw [remChildMods]
  | cons c cs ih => rw [remChildMods, getLabelRemovalMods_up, ih]

/-- In label mode, the removal sweep appends exactly the preorder list of
marker-carrying payloads and touches nothing else. -/
theorem getLabelRemovalMods_char :
    ∀ i : Item, ∀ s : TraversalState,
      Item.GetLabelRemovalMods false i s =
        ⟨s.remove_labels ++
           (itemDatas i).filter (fun d => labelHas d.labels s.next_action_label_id),
         s.add_labels, s.found_next_action, s.next_action_label_id⟩ := by
  have key := item_ind
    (P := fun i => ∀ s : TraversalState,
      Item.GetLabelRemovalMods false i s =
        ⟨s.remove_labels ++
           (itemDatas i).filter (fun d => labelHas d.labels s.next_action_label_id),
         s.add_labels, s.found_next_action, s.next_action_label_id⟩)
    (Q := fun cs => ∀ s : TraversalState,
      remChildMods false cs s =
        ⟨s.remove_labels ++
           (itemDatasL cs).filter (fun d => labelHas d.labels s.next_action_label_id),
         s.add_labels, s.found_next_action, s.next_action_label_id⟩)
    (fun d cs hq => by
      intro s
      rw [Item.GetLabelRemovalMods]
      simp only [Bool.false_eq_true, if_false, itemDatas]
      by_cases hd : labelHas d.labels s.next_action_label_id = true
      · rw [if_pos hd, hq]
        simp [List.filter_cons, hd, List.append_assoc]
      · rw [if_neg hd, hq]
        simp only [List.filter_cons]
        rw [Bool.not_eq_true] at hd
        simp [hd])
    (fun s => by simp [remChildMods, itemDatasL])
    (fun c cs hc hq => by
      intro s
      rw [remChildMods, hc s, hq]
      simp [itemDatasL, List.filter_append, List.append_assoc])
  exact key

/-- Forest version of `getLabelRemovalMods_char`. -/
theorem remChildMods_char :
    ∀ cs : List Item, ∀ s : TraversalState,
      remChildMods false cs s =
        ⟨s.remove_labels ++
           (itemDatasL cs).filter (fun d => labelHas d.labels s.next_action_label_id),
         s.add_labels, s.found_next_action, s.next_action_label_id⟩ := by
  intro cs
  induction cs with
  | nil => intro s; simp [remChildMods, itemDatasL]
  | cons c cs ih =>
    intro s
    rw [remChildMods, getLabelRemovalMods_char c s, ih]
    simp [itemDatasL, List.filter_append, List.append_assoc]

/-- Claim C4: the traversal never places a checked item into the add list;
any add entry is either inherited from the incoming state or unchecked. -/
theorem c4_checked_never_added (up : Bool) (p : Project) (s : TraversalState)
    (x : ItemData) (h : x ∈ (Project.GetItemMods up p s).add_labels) :
    x ∈ s.add_labels ∨ x.checked = false := by
  rw [Project.GetItemMods] at h
  by_cases h1 : p.IsSequential = true
  · rw [if_pos h1, (childMods_char up p.children).1 s] at h
    rcases List.mem_append.1 h with h | h
    · exact Or.inl h
    · exact Or.inr ((modsSeqPar_add_unchecked up s.next_action_label_id p.children).1 _ x h)
  · rw [if_neg h1] at h
    by_cases h2 : p.IsParallel = true
    · rw [if_pos h2, (childMods_char up p.children).2 s.clone s rfl] at h
      rcases List.mem_append.1 h with h | h
      · exact Or.inl h
      · exact Or.inr ((modsSeqPar_add_unchecked up s.next_action_label_id p.children).2 _ x h)
    · rw [if_neg h2] at h
      cases up with
      | true => rw [remChildMods_up] at h; exact Or.inl h
      | false => rw [remChildMods_char] at h; exact Or.inl h

/-- Claim C2 (amended): a none-mode project adds nothing and, in label mode,
removes exactly the marker-carrying payloads of its forest in preorder,
regardless of checked state; in priority mode the sweep removes nothing. -/
theorem c2_none_mode (up : Bool) (nid : Option Nat) (p : Project)
    (h1 : p.IsSequential = false) (h2 : p.IsParallel = false) :
    Project.GetItemMods up p ⟨[], [], false, nid⟩ =
      ⟨if up then []
       else (itemDatasL p.children).filter (fun d => labelHas d.labels nid),
       [], false, nid⟩ := by
  rw [Project.GetItemMods, if_neg (by simp [h1]), if_neg (by simp [h2])]
  cases up with
  | true => rw [remChildMods_up]; rfl
  | false => rw [remChildMods_char]; rfl

/-- Claim C9: item classification is an exact two-way split, sequential being
the complement of parallel for every content string. -/
theorem c9_item_two_way : ∀ i : Item, i.IsSequential = !i.IsParallel :=
  fun i => isSequential_eq_not_isParallel i

/-- Claim C3: with no resolved label id in label mode, `GetProjectMods` caches
a temporary id and returns exactly the one label-registration operation. -/
theorem c3_handshake (td : TodoistData) (now : Nat) (h : td.next_action_id = none) :
    td.GetProjectMods false now =
      ({ td with next_action_id := some now },
       [SyncMod.label_register now now NEXT_ACTION_LABEL]) := by
  rw [TodoistData.GetProjectMods]
  simp [h]

/-- The mutation loops never touch `content` or `checked`. -/
theorem applySelf_content (up : Bool) (nid : Option Nat) (d : ItemData) (f : Bool) :
    (applySelf up nid d f).content = d.content := by
  unfold applySelf
  repeat' split
  all_goals rfl

/-- The mutation loops never touch `checked`. -/
theorem applySelf_checked (up : Bool) (nid : Option Nat) (d : ItemData) (f : Bool) :
    (applySelf up nid d f).checked = d.checked := by
  unfold applySelf
  repeat' split
  all_goals rfl

theorem foundPres_node (up : Bool) (nid : Option Nat) (d : ItemData) (cs : List Item)
    (hq : FoundPresL up nid cs) : FoundPresI up nid (Item.node d cs) := by
  intro f
  rw [applyItem, foundItem, foundItem]
  simp only [Item.IsSequential, Item.IsParallel, applySelf_content, applySelf_checked]
  by_cases he : strEndsWith d.content "=" = true
  · simp only [he, Bool.not_true, Bool.false_eq_true, if_false, if_true]
    rw [hq.2 f f]
  · rw [Bool.not_eq_true] at he
    simp only [he, Bool.not_false, if_true, Bool.false_eq_true, if_false]
    rw [hq.1 f]

theorem foundPres_nil (up : Bool) (nid : Option Nat) : FoundPresL up nid [] := by
  constructor
  · intro f; rfl
  · intro f0 acc; rfl

theorem foundPres_cons (up : Bool) (nid : Option Nat) (c : Item) (cs : List Item)
    (hc : FoundPresI up nid c) (hq : FoundPresL up nid cs) :
    FoundPresL up nid (c :: cs) := by
  constructor
  · intro f
    rw [applySeq, foundSeq, foundSeq, hc f, hq.1 (foundItem c f)]
  · intro f0 acc
    rw [applyPar, foundPar, foundPar, hc f0, hq.2 f0 (acc || foundItem c f0)]

/-- Found-flag dynamics are invariant under the cycle's mutation (subtree). -/
theorem foundItem_apply (up : Bool) (nid : Option Nat) : ∀ i, FoundPresI up nid i :=
  item_ind (foundPres_node up nid) (foundPres_nil up nid) (foundPres_cons up nid)

/-- Found-flag dynamics are invariant under the cycle's mutation (forest). -/
theorem foundList_apply (up : Bool) (nid : Option Nat) : ∀ cs, FoundPresL up nid cs :=
  itemList_ind (foundPres_node up nid) (foundPres_nil up nid) (foundPres_cons up nid)

theorem labelsOk_mono {up : Bool} {nid : Option Nat} {ds ds' : List ItemData}
    (hsub : ∀ d ∈ ds', d ∈ ds) (h : labelsOk up nid ds) : labelsOk up nid ds' := by
  rcases h with h | ⟨x, hx, hc⟩
  · exact Or.inl h
  · exact Or.inr ⟨x, hx, fun d hd => hc d (hsub d hd)⟩

theorem contains_append_self (l : List Nat) (x : Nat) : (l ++ [x]).contains x = true := by
  rw [List.elem_iff]
  simp

theorem contains_erase_of_count_le_one (l : List Nat) (x : Nat) (h : l.count x ≤ 1) :
    (l.erase x).contains x = false := by
  rw [Bool.eq_false_iff]
  intro hc
  rw [List.elem_iff] at hc
  have h1 : 0 < (l.erase x).count x := List.count_pos_iff.mpr hc
  rw [List.count_erase_self] at h1
  omega

/-- The key node-level step of idempotence: a node that just received its own
decision decides nothing on the next run. -/
theorem selfDec_applySelf (up : Bool) (nid : Option Nat) (d : ItemData) (f : Bool)
    (h : labelsOk up nid [d]) :
    selfDec up nid (applySelf up nid d f) f = ([], []) := by
  cases up with
  | true =>
    unfold selfDec
    simp only [applySelf_checked]
    by_cases hcond : (!f && !d.checked) = true
    · rw [if_pos hcond]
      unfold applySelf
      rw [if_pos hcond]
      by_cases hp : d.priority = 4
      · simp [hp]
      · simp [hp]
    · rw [if_neg hcond]
      unfold applySelf
      rw [if_neg hcond]
      by_cases hp : d.priority = 4
      · simp [hp]
      · simp [hp]
  | false =>
    have h' : ∃ x, nid = some x ∧ ∀ d' ∈ [d], d'.labels.count x ≤ 1 := by
      rcases h with h | h
      · exact absurd h (by simp)
      · exact h
    obtain ⟨x, hx, hc⟩ := h'
    subst hx
    have hcd : d.labels.count x ≤ 1 := hc d (by simp)
    unfold selfDec
    simp only [applySelf_checked]
    by_cases hcond : (!f && !d.checked) = true
    · rw [if_pos hcond]
      unfold applySelf
      rw [if_pos hcond]
      by_cases hl : labelHas d.labels (some x) = true
      · simp [hl]
      · rw [Bool.not_eq_true] at hl
        have hlm : x ∉ d.labels := by simpa [labelHas, List.elem_iff] using hl
        simp [hl, hlm, labelHas, labelAppend]
    · rw [if_neg hcond]
      unfold applySelf
      rw [if_neg hcond]
      by_cases hl : labelHas d.labels (some x) = true
      · have hlm : x ∈ d.labels := by simpa [labelHas, List.elem_iff] using hl
        have h0 : (d.labels.erase x).count x = 0 := by
          rw [List.count_erase_self]
          have := List.count_pos_iff.mpr hlm
          omega
        have hnm : x ∉ d.labels.erase x := List.count_eq_zero.mp h0
        simp [hl, hlm, hnm, labelHas, labelErase]
      · rw [Bool.not_eq_true] at hl
        simp [hl]

theorem vanish_node (up : Bool) (nid : Option Nat) (d : ItemData) (cs : List Item)
    (hq : VanishL up nid cs) : VanishI up nid (Item.node d cs) := by
  intro h f
  have hcs : labelsOk up nid (itemDatasL cs) :=
    labelsOk_mono (by intro d' hd'; simp [itemDatas, hd']) h
  have hd : labelsOk up nid [d] :=
    labelsOk_mono (by intro d' hd'; simp at hd'; simp [itemDatas, hd']) h
  rw [applyItem, modsF]
  simp only [Item.IsSequential, Item.IsParallel, applySelf_content]
  by_cases he : strEndsWith d.content "=" = true
  · simp only [he, Bool.not_true, Bool.false_eq_true, if_false, if_true]
    rw [(hq hcs).2 f]
    rw [(foundList_apply up nid cs).2 f f]
    rw [selfDec_applySelf up nid d (foundPar f cs f) hd]
    rfl
  · rw [Bool.not_eq_true] at he
    simp only [he, Bool.not_false, if_true]
    rw [(hq hcs).1 f]
    rw [(foundList_apply up nid cs).1 f]
    rw [selfDec_applySelf up nid d (foundSeq cs f) hd]
    rfl

theorem vanish_nil (up : Bool) (nid : Option Nat) : VanishL up nid [] := by
  intro h
  constructor
  · intro f; rfl
  · intro f0; rfl

theorem vanish_cons (up : Bool) (nid : Option Nat) (c : Item) (cs : List Item)
    (hc : VanishI up nid c) (hq : VanishL up nid cs) : VanishL up nid (c :: cs) := by
  intro h
  have hc' := hc (labelsOk_mono (by intro d' hd'; simp [itemDatasL, hd']) h)
  have hq' := hq (labelsOk_mono (by intro d' hd'; simp [itemDatasL, hd']) h)
  constructor
  · intro f
    rw [applySeq, modsSeq]
    rw [hc' f]
    rw [foundItem_apply up nid c f]
    rw [(hq'.1 (foundItem c f))]
    rfl
  · intro f0
    rw [applyPar, modsPar]
    rw [hc' f0]
    rw [hq'.2 f0]
    rfl

/-- After the cycle's decisions were applied to a subtree, a second traversal
of it decides nothing. -/
theorem modsF_apply_vanish (up : Bool) (nid : Option Nat) : ∀ i, VanishI up nid i :=
  item_ind (vanish_node up nid) (vanish_nil up nid) (vanish_cons up nid)

/-- Forest version of `modsF_apply_vanish`. -/
theorem modsL_apply_vanish (up : Bool) (nid : Option Nat) : ∀ cs, VanishL up nid cs :=
  itemList_ind (vanish_node up nid) (vanish_nil up nid) (vanish_cons up nid)

/-- In priority mode the none-mode sweep mutates nothing. -/
theorem stripItem_up (nid : Option Nat) (c : Item) : stripItem true nid c = c := by
  cases c with
  | node d cs => rw [stripItem]; simp

/-- In priority mode the none-mode sweep mutates nothing (forest). -/
theorem stripList_up (nid : Option Nat) (cs : List Item) : stripList true nid cs = cs := by
  induction cs with
  | nil => rfl
  | cons c cs ih => rw [stripList, stripItem_up, ih]

/-- Payloads of a stripped forest are the stripped payloads, in order. -/
theorem stripped_datas (nid : Option Nat) :
    ∀ cs, itemDatasL (stripList false nid cs) =
      (itemDatasL cs).map
        (fun d => if labelHas d.labels nid then { d with labels := labelErase d.labels nid } else d) := by
  have key := itemList_ind
    (P := fun i => itemDatas (stripItem false nid i) =
      (itemDatas i).map
        (fun d => if labelHas d.labels nid then { d with labels := labelErase d.labels nid } else d))
    (Q := fun cs => itemDatasL (stripList false nid cs) =
      (itemDatasL cs).map
        (fun d => if labelHas d.labels nid then { d with labels := labelErase d.labels nid } else d))
    (fun d cs hq => by
      simp only [stripItem, Bool.false_eq_true, if_false, itemDatas, List.map_cons, hq])
    (by simp [stripList, itemDatasL])
    (fun c cs hc hq => by
      simp only [stripList, itemDatasL, List.map_append, hc, hq])
  exact key

/-- After the none-mode sweep, no payload carries the marker. -/
theorem stripped_no_marker (nid : Option Nat) (cs : List Item)
    (h : labelsOk false nid (itemDatasL cs)) :
    (itemDatasL (stripList false nid cs)).filter (fun d => labelHas d.labels nid) = [] := by
  have h' : ∃ x, nid = some x ∧ ∀ d ∈ itemDatasL cs, d.labels.count x ≤ 1 := by
    rcases h with h | h
    · exact absurd h (by simp)
    · exact h
  obtain ⟨x, hx, hc⟩ := h'
  subst hx
  rw [stripped_datas]
  rw [List.filter_eq_nil_iff]
  intro d hd
  rcases List.mem_map.1 hd with ⟨d0, hd0, rfl⟩
  by_cases hl : labelHas d0.labels (some x) = true
  · have hlm : x ∈ d0.labels := by simpa [labelHas, List.elem_iff] using hl
    have h0 : (d0.labels.erase x).count x = 0 := by
      rw [List.count_erase_self]
      have := List.count_pos_iff.mpr hlm
      have := hc d0 hd0
      omega
    have hnm : x ∉ d0.labels.erase x := List.count_eq_zero.mp h0
    simp [hl, hlm, labelHas, labelErase, List.elem_iff, hnm]
  · rw [Bool.not_eq_true] at hl
    have hlm : x ∉ d0.labels := by simpa [labelHas, List.elem_iff] using hl
    simp [hl, hlm, labelHas]

/-- The project returned by `runMods` keeps its name (only children and flat
records change). -/
theorem runMods_name (up : Bool) (now : Nat) (nid : Option Nat) (p : Project) :
    (Project.runMods up now nid p).1.name = p.name := rfl

/-- The project returned by `runMods` carries the mutated tree. -/
theorem runMods_children (up : Bool) (now : Nat) (nid : Option Nat) (p : Project) :
    (Project.runMods up now nid p).1.children = Project.applyCycle up nid p := rfl

/-- A second traversal of a project that has just received its decisions
accumulates nothing. -/
theorem second_traversal_empty (up : Bool) (nid : Option Nat) (now : Nat) (p : Project)
    (h : labelsOk up nid (itemDatasL p.children)) :
    (Project.GetItemMods up (Project.runMods up now nid p).1 ⟨[], [], false, nid⟩).add_labels = [] ∧
    (Project.GetItemMods up (Project.runMods up now nid p).1 ⟨[], [], false, nid⟩).remove_labels = [] := by
  rw [Project.GetItemMods]
  have hseq : (Project.runMods up now nid p).1.IsSequential = p.IsSequential := by
    simp [Project.IsSequential, runMods_name]
  have hpar : (Project.runMods up now nid p).1.IsParallel = p.IsParallel := by
    simp [Project.IsParallel, runMods_name]
  rw [hseq, hpar, runMods_children]
  by_cases h1 : p.IsSequential = true
  · rw [if_pos h1]
    rw [Project.applyCycle, if_pos h1]
    rw [(childMods_char up _).1 ⟨[], [], false, nid⟩]
    rw [((modsL_apply_vanish up nid p.children) h).1 false]
    constructor <;> rfl
  · rw [if_neg h1]
    by_cases h2 : p.IsParallel = true
    · rw [if_pos h2]
      rw [Project.applyCycle, if_neg h1, if_pos h2]
      rw [(childMods_char up _).2 (TraversalState.clone ⟨[], [], false, nid⟩)
        (⟨[], [], false, nid⟩ : TraversalState) rfl]
      simp only [TraversalState.clone]
      rw [((modsL_apply_vanish up nid p.children) h).2 false]
      constructor <;> rfl
    · rw [if_neg h2]
      rw [Project.applyCycle, if_neg h1, if_neg h2]
      cases up with
      | true =>
        rw [stripList_up, remChildMods_up]
        constructor <;> rfl
      | false =>
        rw [remChildMods_char]
        rw [stripped_no_marker nid p.children h]
        constructor <;> rfl

/-- When the traversal accumulates nothing, `runMods` emits no operations. -/
theorem runMods_mods_empty (up : Bool) (now : Nat) (nid : Option Nat) (p : Project)
    (ha : (Project.GetItemMods up p ⟨[], [], false, nid⟩).add_labels = [])
    (hr : (Project.GetItemMods up p ⟨[], [], false, nid⟩).remove_labels = []) :
    (Project.runMods up now nid p).2 = [] := by
  simp only [Project.runMods]
  rw [ha, hr]
  rfl

/-- `projectsLoop` maps `runMods` over the project list. -/
theorem projectsLoop_fst (up : Bool) (now : Nat) (nid : Option Nat) (ps : List Project) :
    (projectsLoop up now nid ps).1 = ps.map (fun p => (Project.runMods up now nid p).1) := by
  induction ps with
  | nil => rfl
  | cons p ps ih => rw [projectsLoop]; simp [ih]

/-- Running the loop a second time over already-updated projects emits no
operations. -/
theorem projectsLoop_twice_empty (up : Bool) (nid : Option Nat) (now now' : Nat)
    (ps : List Project) (hok : ∀ p ∈ ps, labelsOk up nid (itemDatasL p.children)) :
    (projectsLoop up now' nid (ps.map (fun p => (Project.runMods up now nid p).1))).2 = [] := by
  induction ps with
  | nil => rfl
  | cons p ps ih =>
    rw [List.map_cons, projectsLoop]
    have h1 := second_traversal_empty up nid now p (hok p (by simp))
    rw [runMods_mods_empty up now' nid _ h1.1 h1.2]
    simp only [List.nil_append]
    exact ih (fun q hq => hok q (by simp [hq]))

/-- Claim C6: with a resolved marker identity, one `GetProjectMods` cycle
applied to the local mirror is locally idempotent — a second run emits no
operations at all.  In label mode the resolved id must occur at most once per
labels list (the data model treats `labels` as a set). -/
theorem c6_locally_idempotent (up : Bool) (td : TodoistData) (now now' : Nat)
    (hres : up = true ∨ ∃ x, td.next_action_id = some x)
    (hok : ∀ p ∈ td.projects, labelsOk up td.next_action_id (itemDatasL p.children)) :
    ((td.GetProjectMods up now).1.GetProjectMods up now').2 = [] := by
  have hguard : (td.next_action_id == none && !up) = false := by
    rcases hres with hup | ⟨x, hx⟩
    · simp [hup]
    · simp [hx]
  have h1 : td.GetProjectMods up now =
      ({ td with projects := (projectsLoop up now td.next_action_id td.projects).1 },
       (projectsLoop up now td.next_action_id td.projects).2) := by
    rw [TodoistData.GetProjectMods]
    simp [hguard]
  rw [h1]
  rw [TodoistData.GetProjectMods]
  simp only [hguard, Bool.false_eq_true, if_false]
  rw [projectsLoop_fst]
  exact projectsLoop_twice_empty up td.next_action_id now now' td.projects hok

/-- Counterexample to C8: on the claim's input (indents 0,1,1,2,0) the
builder walks above the project root (indent 0) and fails — it does not
produce the claimed forest. -/
theorem c8_counterexample : Project.BuildItemTree p8claim = none := by rfl

/-- Claim C8 (amended): with the same five contents at one-based indents
1,2,2,3,1 the builder attaches exactly the forest A→[B, C→[D]], E. -/
theorem c8_amended : Project.BuildItemTree p8fixed =
    some { p8fixed with children :=
      [Item.node (ItemData.ofRec (mkRec8 1 "A" 1 1))
         [Item.node (ItemData.ofRec (mkRec8 2 "B" 2 2)) [],
          Item.node (ItemData.ofRec (mkRec8 3 "C" 2 3))
            [Item.node (ItemData.ofRec (mkRec8 4 "D" 3 4)) []]],
       Item.node (ItemData.ofRec (mkRec8 5 "E" 1 5)) []] } := by rfl

/-- Counterexample to C7: deleting an unknown item id is not a no-op — the
merge fails hard (Python `KeyError`, modelled `none`) instead of returning
the unchanged mirror `some tdC7`. -/
theorem c7_counterexample : TodoistData.UpdateChangedData tdC7 deltaC7 = none := by rfl

/-- Claim C7 (amended): updates for unknown project or item ids are implicit
creations, but a deletion referencing an unknown id raises a lookup failure
and aborts the merge (for items, the project itself must also be known). -/
theorem c7_amended :
    (∀ (ps : List Project) (r : ProjectRec), r.is_deleted ≠ 1 →
      lookupProject ps r.id = none →
      updProjects [r] ps = some (ps ++ [Project.ofRec r]))
    ∧ (∀ (ps : List Project) (p : Project) (r : ItemRec), r.is_deleted ≠ 1 →
        lookupProject ps r.project_id = some p →
        p.unsorted_items.any (fun y => y.id == r.id) = false →
        updItems [r] ps =
          some (setProject ps { p with unsorted_items := p.unsorted_items ++ [r] }))
    ∧ (∀ (ps : List Project) (p : Project) (r : ItemRec), r.is_deleted = 1 →
        lookupProject ps r.project_id = some p →
        p.unsorted_items.any (fun y => y.id == r.id) = false →
        updItems [r] ps = none)
    ∧ (∀ (ps : List Project) (r : ProjectRec) (k : Nat), r.is_deleted = 1 →
        r.project_id = some k → lookupProject ps k = none →
        updProjects [r] ps = none) := by
  refine ⟨?_, ?_, ?_, ?_⟩
  · intro ps r hdel hlook
    rw [updProjects]
    have : (r.is_deleted == 1) = false := by simpa using hdel
    simp [this, hlook, updProjects]
  · intro ps p r hdel hlook hany
    rw [updItems]
    have : (r.is_deleted == 1) = false := by simpa using hdel
    simp [this, hlook, Project.AddItem, hany, updItems]
  · intro ps p r hdel hlook hany
    rw [updItems]
    simp [hdel, hlook, Project.DelItem, hany]
  · intro ps r k hdel hpid hlook
    rw [updProjects]
    simp [hdel, hpid, hlook]

/-- A node's self-decision is one add entry, one remove entry, or nothing. -/
theorem selfDec_cases (up : Bool) (nid : Option Nat) (d : ItemData) (f : Bool) :
    selfDec up nid d f = ([d], []) ∨ selfDec up nid d f = ([], [d]) ∨
      selfDec up nid d f = ([], []) := by
  unfold selfDec
  split
  · split
    · exact Or.inl rfl
    · split
      · exact Or.inl rfl
      · exact Or.inr (Or.inr rfl)
  · split
    · exact Or.inr (Or.inl rfl)
    · split
      · exact Or.inr (Or.inl rfl)
      · exact Or.inr (Or.inr rfl)

theorem countBnd_node (up : Bool) (nid : Option Nat) (d : ItemData) (cs : List Item)
    (hq : CountBndL up nid cs) : CountBndI up nid (Item.node d cs) := by
  intro f y
  rw [modsF]
  have hsd : ∀ g, ((selfDec up nid d g).1.map ItemData.item_id).count y +
      ((selfDec up nid d g).2.map ItemData.item_id).count y ≤
      ([d.item_id] : List Nat).count y := by
    intro g
    rcases selfDec_cases up nid d g with h | h | h <;> rw [h] <;> simp
  have hcons : ((itemDatas (Item.node d cs)).map ItemData.item_id).count y =
      ((itemDatasL cs).map ItemData.item_id).count y + ([d.item_id] : List Nat).count y := by
    simp [itemDatas, List.count_cons]
  rw [hcons]
  by_cases h1 : (Item.node d cs).IsSequential = true
  · simp only [if_pos h1, List.map_append, List.count_append]
    have hc := hq.1 f y
    have hs := hsd (foundSeq cs f)
    omega
  · by_cases h2 : (Item.node d cs).IsParallel = true
    · simp only [if_neg h1, if_pos h2, List.map_append, List.count_append]
      have hc := hq.2 f y
      have hs := hsd (foundPar f cs f)
      omega
    · simp only [if_neg h1, if_neg h2, List.map_append, List.count_append,
        List.map_nil, List.count_nil]
      have hs := hsd f
      omega

theorem countBnd_nil (up : Bool) (nid : Option Nat) : CountBndL up nid [] := by
  constructor <;> intro f y <;> simp [modsSeq, modsPar, itemDatasL]

theorem countBnd_cons (up : Bool) (nid : Option Nat) (c : Item) (cs : List Item)
    (hc : CountBndI up nid c) (hq : CountBndL up nid cs) :
    CountBndL up nid (c :: cs) := by
  constructor
  · intro f y
    rw [modsSeq]
    simp only [itemDatasL, List.map_append, List.count_append]
    have h1 := hc f y
    have h2 := hq.1 (foundItem c f) y
    omega
  · intro f y
    rw [modsPar]
    simp only [itemDatasL, List.map_append, List.count_append]
    have h1 := hc f y
    have h2 := hq.2 f y
    omega

/-- Per-id multiplicity bound for a whole subtree's decisions. -/
theorem countBnd_item (up : Bool) (nid : Option Nat) : ∀ i, CountBndI up nid i :=
  item_ind (countBnd_node up nid) (countBnd_nil up nid) (countBnd_cons up nid)

/-- Per-id multiplicity bound for a forest's decisions. -/
theorem countBnd_list (up : Bool) (nid : Option Nat) : ∀ cs, CountBndL up nid cs :=
  itemList_ind (countBnd_node up nid) (countBnd_nil up nid) (countBnd_cons up nid)

/-- Per-id multiplicity bound for a whole project cycle's decision lists. -/
theorem project_count_bnd (up : Bool) (nid : Option Nat) (p : Project) (y : Nat) :
    ((Project.GetItemMods up p ⟨[], [], false, nid⟩).add_labels.map ItemData.item_id).count y +
      ((Project.GetItemMods up p ⟨[], [], false, nid⟩).remove_labels.map ItemData.item_id).count y ≤
    ((itemDatasL p.children).map ItemData.item_id).count y := by
  rw [Project.GetItemMods]
  by_cases h1 : p.IsSequential = true
  · rw [if_pos h1, (childMods_char up _).1 ⟨[], [], false, nid⟩]
    have := (countBnd_list up nid p.children).1 false y
    simpa using this
  · rw [if_neg h1]
    by_cases h2 : p.IsParallel = true
    · rw [if_pos h2, (childMods_char up _).2 (TraversalState.clone ⟨[], [], false, nid⟩)
        (⟨[], [], false, nid⟩ : TraversalState) rfl]
      simp only [TraversalState.clone]
      have := (countBnd_list up nid p.children).2 false y
      simpa using this
    · rw [if_neg h2]
      cases up with
      | true =>
        rw [remChildMods_up]
        simp
      | false =>
        rw [remChildMods_char]
        have hsub : ((itemDatasL p.children).filter
            (fun d => labelHas d.labels nid)).Sublist (itemDatasL p.children) :=
          List.filter_sublist _
        have := (hsub.map ItemData.item_id).count_le y
        simpa using this

/-- `markAddRec` and `markRemoveRec` keep the record id. -/
theorem markAddRec_id (up : Bool) (nid : Option Nat) (r : ItemRec) :
    (markAddRec up nid r).id = r.id := by
  unfold markAddRec; split <;> rfl

/-- `markRemoveRec` keeps the record id. -/
theorem markRemoveRec_id (up : Bool) (nid : Option Nat) (r : ItemRec) :
    (markRemoveRec up nid r).id = r.id := by
  unfold markRemoveRec; split <;> rfl

/-- The add loop's record effect is a pointwise fold over the decisions. -/
theorem applyAddLoop_fst (up : Bool) (now : Nat) (nid : Option Nat) :
    ∀ (ds : List ItemData) (acc : List ItemRec × List SyncMod),
      (applyAddLoop up now nid ds acc).1 =
        acc.1.map (fun r => ds.foldl
          (fun a d => if a.id == d.item_id then markAddRec up nid a else a) r) := by
  intro ds
  induction ds with
  | nil => intro acc; simp [applyAddLoop]
  | cons d ds ih =>
    intro acc
    obtain ⟨recs, mods⟩ := acc
    rw [applyAddLoop, ih, List.map_map]
    rfl

/-- The remove loop's record effect is a pointwise fold over the decisions. -/
theorem applyRemoveLoop_fst (up : Bool) (now : Nat) (nid : Option Nat) :
    ∀ (ds : List ItemData) (acc : List ItemRec × List SyncMod),
      (applyRemoveLoop up now nid ds acc).1 =
        acc.1.map (fun r => ds.foldl
          (fun a d => if a.id == d.item_id then markRemoveRec up nid a else a) r) := by
  intro ds
  induction ds with
  | nil => intro acc; simp [applyRemoveLoop]
  | cons d ds ih =>
    intro acc
    obtain ⟨recs, mods⟩ := acc
    rw [applyRemoveLoop, ih, List.map_map]
    rfl

/-- A record whose id matches no decision is untouched by the add fold. -/
theorem addFold_not_mem (up : Bool) (nid : Option Nat) (ds : List ItemData) (r : ItemRec)
    (h : r.id ∉ ds.map ItemData.item_id) :
    ds.foldl (fun acc d => if acc.id == d.item_id then markAddRec up nid acc else acc) r = r := by
  induction ds with
  | nil => rfl
  | cons d ds ih =>
    simp only [List.map_cons, List.mem_cons, not_or] at h
    rw [List.foldl_cons]
    rw [if_neg (by simpa using h.1)]
    exact ih h.2

/-- A record whose id matches no decision is untouched by the remove fold. -/
theorem remFold_not_mem (up : Bool) (nid : Option Nat) (ds : List ItemData) (r : ItemRec)
    (h : r.id ∉ ds.map ItemData.item_id) :
    ds.foldl (fun acc d => if acc.id == d.item_id then markRemoveRec up nid acc else acc) r = r := by
  induction ds with
  | nil => rfl
  | cons d ds ih =>
    simp only [List.map_cons, List.mem_cons, not_or] at h
    rw [List.foldl_cons]
    rw [if_neg (by simpa using h.1)]
    exact ih h.2

/-- With duplicate-free decision ids, a matching record is updated exactly
once by the add fold. -/
theorem addFold_mem_once (up : Bool) (nid : Option Nat) (ds : List ItemData) (r : ItemRec)
    (hnd : (ds.map ItemData.item_id).Nodup) (h : r.id ∈ ds.map ItemData.item_id) :
    ds.foldl (fun acc d => if acc.id == d.item_id then markAddRec up nid acc else acc) r =
      markAddRec up nid r := by
  induction ds with
  | nil => simp at h
  | cons d ds ih =>
    simp only [List.map_cons, List.nodup_cons] at hnd
    rw [List.foldl_cons]
    by_cases hd : r.id = d.item_id
    · rw [if_pos (by simpa using hd)]
      apply addFold_not_mem
      rw [markAddRec_id, hd]
      exact hnd.1
    · rw [if_neg (by simpa using hd)]
      simp only [List.map_cons, List.mem_cons] at h
      exact ih hnd.2 (h.resolve_left hd)

/-- With duplicate-free decision ids, a matching record is updated exactly
once by the remove fold. -/
theorem remFold_mem_once (up : Bool) (nid : Option Nat) (ds : List ItemData) (r : ItemRec)
    (hnd : (ds.map ItemData.item_id).Nodup) (h : r.id ∈ ds.map ItemData.item_id) :
    ds.foldl (fun acc d => if acc.id == d.item_id then markRemoveRec up nid acc else acc) r =
      markRemoveRec up nid r := by
  induction ds with
  | nil => simp at h
  | cons d ds ih =>
    simp only [List.map_cons, List.nodup_cons] at hnd
    rw [List.foldl_cons]
    by_cases hd : r.id = d.item_id
    · rw [if_pos (by simpa using hd)]
      apply remFold_not_mem
      rw [markRemoveRec_id, hd]
      exact hnd.1
    · rw [if_neg (by simpa using hd)]
      simp only [List.map_cons, List.mem_cons] at h
      exact ih hnd.2 (h.resolve_left hd)

/-- The flat records after `runMods`: each original record receives the add
fold, then the remove fold. -/
theorem runMods_unsorted (up : Bool) (now : Nat) (nid : Option Nat) (p : Project) :
    (Project.runMods up now nid p).1.unsorted_items =
      p.unsorted_items.map (fun r =>
        (Project.GetItemMods up p ⟨[], [], false, nid⟩).remove_labels.foldl
          (fun a d => if a.id == d.item_id then markRemoveRec up nid a else a)
          ((Project.GetItemMods up p ⟨[], [], false, nid⟩).add_labels.foldl
            (fun a d => if a.id == d.item_id then markAddRec up nid a else a) r)) := by
  simp only [Project.runMods]
  rw [applyRemoveLoop_fst, applyAddLoop_fst, List.map_map]
  rfl

/-- Membership in a forest's payloads goes through one of its trees. -/
theorem mem_datasL_iff (cs : List Item) (d : ItemData) :
    d ∈ itemDatasL cs ↔ ∃ c ∈ cs, d ∈ itemDatas c := by
  induction cs with
  | nil => simp [itemDatasL]
  | cons c cs ih =>
    simp only [itemDatasL, List.mem_append, ih, List.mem_cons]
    constructor
    · rintro (h | ⟨c', hc', hd⟩)
      · exact ⟨c, Or.inl rfl, h⟩
      · exact ⟨c', Or.inr hc', hd⟩
    · rintro ⟨c', hc' | hc', hd⟩
      · subst hc'; exact Or.inl hd
      · exact Or.inr ⟨c', hc', hd⟩

/-- Membership in the open frames' payloads. -/
theorem mem_framesDatas_iff (fs : List BFrame) (d : ItemData) :
    d ∈ framesDatas fs ↔ ∃ f ∈ fs, d = f.data ∨ d ∈ itemDatasL f.done := by
  induction fs with
  | nil => simp [framesDatas]
  | cons f fs ih =>
    simp only [framesDatas, List.mem_append, List.mem_cons, ih]
    constructor
    · rintro ((h | h) | ⟨f', hf', hd⟩)
      · exact ⟨f, Or.inl rfl, Or.inl h⟩
      · exact ⟨f, Or.inl rfl, Or.inr h⟩
      · exact ⟨f', Or.inr hf', hd⟩
    · rintro ⟨f', hf' | hf', hd⟩
      · subst hf'; rcases hd with hd | hd
        · exact Or.inl (Or.inl hd)
        · exact Or.inl (Or.inr hd)
      · exact Or.inr ⟨f', hf', hd⟩

/-- Payloads of a dropped-last forest are payloads of the forest. -/
theorem mem_datasL_dropLast (cs : List Item) (d : ItemData)
    (h : d ∈ itemDatasL cs.dropLast) : d ∈ itemDatasL cs := by
  rcases (mem_datasL_iff _ d).1 h with ⟨c, hc, hdc⟩
  exact (mem_datasL_iff cs d).2 ⟨c, List.mem_of_mem_dropLast hc, hdc⟩

/-- Payloads of the last tree of a forest are payloads of the forest. -/
theorem mem_datasL_getLast (cs : List Item) (c : Item) (d : ItemData)
    (hl : cs.getLast? = some c) (h : d ∈ itemDatas c) : d ∈ itemDatasL cs :=
  (mem_datasL_iff cs d).2 ⟨c, List.mem_of_mem_getLast? hl, h⟩

/-- `pushParent` only moves payloads around. -/
theorem pushParent_datas (st : BState) :
    ∀ d ∈ stDatas (pushParent st).rootChildren (pushParent st).frames,
      d ∈ stDatas st.rootChildren st.frames := by
  intro d hd
  obtain ⟨rc, frames, prev⟩ := st
  cases frames with
  | nil =>
    simp only [pushParent] at hd
    cases hl : rc.getLast? with
    | none => rw [hl] at hd; exact hd
    | some c =>
      cases c with
      | node cd ccs =>
        rw [hl] at hd
        have hB : ∀ x ∈ itemDatas (Item.node cd ccs), x ∈ itemDatasL rc :=
          fun x hx => mem_datasL_getLast rc _ x hl hx
        have hB1 : d = cd → d ∈ itemDatasL rc :=
          fun h => hB d (by rw [h]; simp [itemDatas])
        have hB2 : d ∈ itemDatasL ccs → d ∈ itemDatasL rc :=
          fun h => hB d (by simp [itemDatas, h])
        have hA := mem_datasL_dropLast rc d
        simp only [stDatas, framesDatas, List.mem_append, List.mem_cons,
          List.not_mem_nil, or_false, mem_framesDatas_iff] at hd ⊢
        tauto
  | cons f fs =>
    simp only [pushParent] at hd
    cases hl : f.done.getLast? with
    | none => rw [hl] at hd; exact hd
    | some c =>
      cases c with
      | node cd ccs =>
        rw [hl] at hd
        have hB : ∀ x ∈ itemDatas (Item.node cd ccs), x ∈ itemDatasL f.done :=
          fun x hx => mem_datasL_getLast f.done _ x hl hx
        have hB1 : d = cd → d ∈ itemDatasL f.done :=
          fun h => hB d (by rw [h]; simp [itemDatas])
        have hB2 : d ∈ itemDatasL ccs → d ∈ itemDatasL f.done :=
          fun h => hB d (by simp [itemDatas, h])
        have hA := mem_datasL_dropLast f.done d
        simp only [stDatas, framesDatas, List.mem_append, List.mem_cons,
          mem_framesDatas_iff] at hd ⊢
        aesop

/-- Payloads distribute over forest concatenation. -/
theorem itemDatasL_append (l1 l2 : List Item) :
    itemDatasL (l1 ++ l2) = itemDatasL l1 ++ itemDatasL l2 := by
  induction l1 with
  | nil => simp [itemDatasL]
  | cons c cs ih => simp [itemDatasL, ih]

/-- The attach-and-climb loop only moves payloads around. -/
theorem attachAndClimb_datas (ri ind : Nat) :
    ∀ (fs : List BFrame) (child : Item) (rc : List Item)
      (out : List Item × List BFrame),
      attachAndClimb ri ind child fs rc = some out →
      ∀ d ∈ stDatas out.1 out.2, d ∈ stDatas rc fs ∨ d ∈ itemDatas child := by
  intro fs
  induction fs with
  | nil =>
    intro child rc out hout d hd
    rw [attachAndClimb] at hout
    split at hout
    · exact absurd hout (by simp)
    · rw [Option.some_inj] at hout
      subst hout
      simp only [stDatas, framesDatas, List.append_nil, itemDatasL_append,
        List.mem_append, itemDatasL] at hd ⊢
      tauto
  | cons g gs ih =>
    intro child rc out hout d hd
    rw [attachAndClimb] at hout
    split at hout
    · have := ih (Item.node g.data (g.done ++ [child])) rc out hout d hd
      rcases this with h | h
      · left
        simp only [stDatas, framesDatas, List.mem_append, List.mem_cons] at h ⊢
        tauto
      · simp only [itemDatas, itemDatasL_append, List.mem_cons, List.mem_append,
          itemDatasL, List.append_nil] at h
        rcases h with h | h | h
        · left
          simp [stDatas, framesDatas, h]
        · left
          simp [stDatas, framesDatas, List.mem_append, h]
        · right
          exact h
    · rw [Option.some_inj] at hout
      subst hout
      simp only [stDatas, framesDatas, List.mem_append, List.mem_cons,
        itemDatasL_append, itemDatasL, List.append_nil] at hd ⊢
      tauto

/-- The climb loop only moves payloads around. -/
theorem climbTo_datas (ri ind : Nat) (fs : List BFrame) (rc : List Item)
    (out : List Item × List BFrame) (hout : climbTo ri ind fs rc = some out) :
    ∀ d ∈ stDatas out.1 out.2, d ∈ stDatas rc fs := by
  intro d hd
  cases fs with
  | nil =>
    rw [climbTo] at hout
    split at hout
    · exact absurd hout (by simp)
    · rw [Option.some_inj] at hout
      subst hout
      exact hd
  | cons f fs =>
    rw [climbTo] at hout
    split at hout
    · have := attachAndClimb_datas ri ind fs (Item.node f.data f.done) rc out hout d hd
      rcases this with h | h
      · simp only [stDatas, framesDatas, List.mem_append, List.mem_cons] at h ⊢
        tauto
      · simp only [itemDatas, List.mem_cons] at h
        simp only [stDatas, framesDatas, List.mem_append, List.mem_cons]
        tauto
    · rw [Option.some_inj] at hout
      subst hout
      exact hd

/-- One builder step only adds the new record's payload. -/
theorem buildStep_datas (ri : Nat) (st : BState) (r : ItemRec) (st' : BState)
    (h : buildStep ri st r = some st') :
    ∀ d ∈ stDatas st'.rootChildren st'.frames,
      d ∈ stDatas st.rootChildren st.frames ∨ d = ItemData.ofRec r := by
  intro d hd
  rw [buildStep] at h
  set st1 := if st.prevIndent < (ItemData.ofRec r).indent then pushParent st else st with hst1
  have hst1sub : ∀ x ∈ stDatas st1.rootChildren st1.frames,
      x ∈ stDatas st.rootChildren st.frames := by
    intro x hx
    rw [hst1] at hx
    split at hx
    · exact pushParent_datas st x hx
    · exact hx
  cases hc : climbTo ri (ItemData.ofRec r).indent st1.frames st1.rootChildren with
  | none => rw [hc] at h; exact absurd h (by simp)
  | some out =>
    rw [hc] at h
    have hcl := climbTo_datas ri (ItemData.ofRec r).indent st1.frames st1.rootChildren out hc
    obtain ⟨rc1, frames1⟩ := out
    cases frames1 with
    | nil =>
      rw [Option.some_inj] at h
      subst h
      have hroot : d ∈ itemDatasL rc1 → d ∈ stDatas st.rootChildren st.frames :=
        fun hx => hst1sub d (hcl d (by
          simp only [stDatas, framesDatas, List.append_nil]
          exact hx))
      simp only [stDatas, framesDatas, List.append_nil, itemDatasL_append,
        List.mem_append, itemDatasL, itemDatas, List.mem_cons, List.not_mem_nil,
        or_false] at hd hroot ⊢
      tauto
    | cons f fs =>
      rw [Option.some_inj] at h
      subst h
      have htgt : ∀ x, x ∈ stDatas rc1 (f :: fs) →
          x ∈ stDatas st.rootChildren st.frames :=
        fun x hx => hst1sub x (hcl x hx)
      have htgt1 : d ∈ itemDatasL rc1 → d ∈ stDatas st.rootChildren st.frames :=
        fun hx => htgt d (by simp [stDatas, List.mem_append, hx])
      have htgt2 : d = f.data → d ∈ stDatas st.rootChildren st.frames :=
        fun hx => htgt d (by simp [stDatas, framesDatas, List.mem_append, List.mem_cons, hx])
      have htgt3 : d ∈ itemDatasL f.done → d ∈ stDatas st.rootChildren st.frames :=
        fun hx => htgt d (by simp [stDatas, framesDatas, List.mem_append, List.mem_cons, hx])
      have htgt4 : d ∈ framesDatas fs → d ∈ stDatas st.rootChildren st.frames :=
        fun hx => htgt d (by simp [stDatas, framesDatas, List.mem_append, List.mem_cons, hx])
      simp only [stDatas, framesDatas, List.mem_append, List.mem_cons,
        itemDatasL_append, itemDatasL, itemDatas, List.append_nil, List.not_mem_nil,
        or_false] at hd htgt1 htgt2 htgt3 htgt4 ⊢
      tauto

/-- The whole builder loop only adds payloads of consumed records. -/
theorem buildFold_datas (ri : Nat) :
    ∀ (rs : List ItemRec) (st st' : BState), buildFold ri rs st = some st' →
      ∀ d ∈ stDatas st'.rootChildren st'.frames,
        d ∈ stDatas st.rootChildren st.frames ∨ ∃ r ∈ rs, d = ItemData.ofRec r := by
  intro rs
  induction rs with
  | nil =>
    intro st st' h d hd
    rw [buildFold, Option.some_inj] at h
    subst h
    exact Or.inl hd
  | cons r rs ih =>
    intro st st' h d hd
    rw [buildFold] at h
    cases hs : buildStep ri st r with
    | none => rw [hs] at h; exact absurd h (by simp)
    | some st1 =>
      rw [hs] at h
      rcases ih st1 st' h d hd with h1 | ⟨r', hr', hd'⟩
      · rcases buildStep_datas ri st r st1 hs d h1 with h2 | h2
        · exact Or.inl h2
        · exact Or.inr ⟨r, by simp, h2⟩
      · exact Or.inr ⟨r', by simp [hr'], hd'⟩

/-- Folding the remaining frames only moves payloads around. -/
theorem closeDown_datas :
    ∀ (fs : List BFrame) (child : Item) (rc : List Item) (d : ItemData),
      d ∈ itemDatasL (closeDown child fs rc) →
      d ∈ stDatas rc fs ∨ d ∈ itemDatas child := by
  intro fs
  induction fs with
  | nil =>
    intro child rc d hd
    rw [closeDown] at hd
    rw [itemDatasL_append] at hd
    rcases List.mem_append.1 hd with hd | hd
    · exact Or.inl (by simp [stDatas, framesDatas, List.mem_append, hd])
    · simp only [itemDatasL, List.append_nil] at hd
      exact Or.inr hd
  | cons g gs ih =>
    intro child rc d hd
    rw [closeDown] at hd
    rcases ih _ rc d hd with hd' | hd'
    · left
      simp only [stDatas, framesDatas, List.mem_append, List.mem_cons] at hd' ⊢
      tauto
    · simp only [itemDatas, itemDatasL_append, List.mem_cons, List.mem_append,
        itemDatasL, List.append_nil] at hd'
      rcases hd' with h | h | h
      · exact Or.inl (by simp [stDatas, framesDatas, List.mem_append, h])
      · exact Or.inl (by
          simp [stDatas, framesDatas, List.mem_append, List.mem_cons, h])
      · exact Or.inr h

/-- Closing every frame yields exactly the payloads already in the state. -/
theorem closeAll_datas (fs : List BFrame) (rc : List Item) (d : ItemData)
    (hd : d ∈ itemDatasL (closeAll fs rc)) : d ∈ stDatas rc fs := by
  cases fs with
  | nil => exact (by simpa [stDatas, framesDatas] using hd)
  | cons f fs =>
    rw [closeAll] at hd
    rcases closeDown_datas fs (Item.node f.data f.done) rc d hd with h | h
    · simp only [stDatas, framesDatas, List.mem_append, List.mem_cons] at h ⊢
      tauto
    · simp only [itemDatas, List.mem_cons] at h
      simp only [stDatas, framesDatas, List.mem_append, List.mem_cons]
      tauto

/-- Sorting preserves membership. -/
theorem mem_insertByOrder (r x : ItemRec) (l : List ItemRec) :
    x ∈ insertByOrder r l ↔ x = r ∨ x ∈ l := by
  induction l with
  | nil => simp [insertByOrder]
  | cons y ys ih =>
    rw [insertByOrder]
    split
    · simp [List.mem_cons]
    · simp only [List.mem_cons, ih]
      tauto

/-- Sorting preserves membership. -/
theorem mem_sortByOrder (x : ItemRec) (l : List ItemRec) :
    x ∈ sortByOrder l ↔ x ∈ l := by
  induction l with
  | nil => simp [sortByOrder]
  | cons y ys ih =>
    rw [sortByOrder, mem_insertByOrder]
    simp [ih]

/-- Every payload of a built tree comes from a flat record of the project. -/
theorem buildItemTree_datas (p q : Project) (h : p.BuildItemTree = some q) :
    ∀ d ∈ itemDatasL q.children, ∃ r ∈ p.unsorted_items, d = ItemData.ofRec r := by
  intro d hd
  rw [Project.BuildItemTree] at h
  cases hb : buildFold p.indent (sortByOrder p.unsorted_items) ⟨[], [], p.indent⟩ with
  | none => rw [hb] at h; exact absurd h (by simp)
  | some st =>
    rw [hb] at h
    rw [Option.some_inj] at h
    subst h
    have hd' : d ∈ itemDatasL (closeAll st.frames st.rootChildren) := hd
    have h1 := closeAll_datas st.frames st.rootChildren d hd'
    rcases buildFold_datas p.indent (sortByOrder p.unsorted_items) ⟨[], [], p.indent⟩ st hb d h1 with h2 | ⟨r, hr, hdr⟩
    · simp [stDatas, framesDatas, itemDatasL] at h2
    · exact ⟨r, (mem_sortByOrder r p.unsorted_items).1 hr, hdr⟩

/-- The add fold keeps each record's id. -/
theorem addFold_id (up : Bool) (nid : Option Nat) (ds : List ItemData) (r : ItemRec) :
    (ds.foldl (fun a d => if a.id == d.item_id then markAddRec up nid a else a) r).id = r.id := by
  induction ds generalizing r with
  | nil => rfl
  | cons d ds ih =>
    rw [List.foldl_cons]
    split
    · rw [ih, markAddRec_id]
    · rw [ih]

/-- The remove fold keeps each record's id. -/
theorem remFold_id (up : Bool) (nid : Option Nat) (ds : List ItemData) (r : ItemRec) :
    (ds.foldl (fun a d => if a.id == d.item_id then markRemoveRec up nid a else a) r).id = r.id := by
  induction ds generalizing r with
  | nil => rfl
  | cons d ds ih =>
    rw [List.foldl_cons]
    split
    · rw [ih, markRemoveRec_id]
    · rw [ih]

/-- Claim C10: in label mode, the marker changes of a cycle land in the flat
records as well (the records share their labels list with the tree items), so
a rebuild from the flat records yields items already carrying the applied
marker state: added ids carry the label, removed ids do not. -/
theorem c10_mirror_carries_marker (x now : Nat) (p q : Project)
    (hnd : ((itemDatasL p.children).map ItemData.item_id).Nodup)
    (hcnt : ∀ r ∈ p.unsorted_items, r.labels.count x ≤ 1)
    (hbuild : (Project.runMods false now (some x) p).1.BuildItemTree = some q) :
    ∀ d ∈ itemDatasL q.children,
      (d.item_id ∈ (Project.GetItemMods false p ⟨[], [], false, some x⟩).add_labels.map
          ItemData.item_id → d.labels.contains x = true) ∧
      (d.item_id ∈ (Project.GetItemMods false p ⟨[], [], false, some x⟩).remove_labels.map
          ItemData.item_id → d.labels.contains x = false) := by
  intro d hd
  have hcount1 : ∀ y, ((itemDatasL p.children).map ItemData.item_id).count y ≤ 1 :=
    List.nodup_iff_count_le_one.1 hnd
  have hbnd : ∀ y,
      ((Project.GetItemMods false p ⟨[], [], false, some x⟩).add_labels.map
        ItemData.item_id).count y +
      ((Project.GetItemMods false p ⟨[], [], false, some x⟩).remove_labels.map
        ItemData.item_id).count y ≤ 1 :=
    fun y => le_trans (project_count_bnd false (some x) p y) (hcount1 y)
  have hndA : ((Project.GetItemMods false p ⟨[], [], false, some x⟩).add_labels.map
      ItemData.item_id).Nodup :=
    List.nodup_iff_count_le_one.2 (fun y => by have := hbnd y; omega)
  have hndR : ((Project.GetItemMods false p ⟨[], [], false, some x⟩).remove_labels.map
      ItemData.item_id).Nodup :=
    List.nodup_iff_count_le_one.2 (fun y => by have := hbnd y; omega)
  have hdisj : ∀ y, y ∈ (Project.GetItemMods false p ⟨[], [], false, some x⟩).add_labels.map
      ItemData.item_id →
      y ∉ (Project.GetItemMods false p ⟨[], [], false, some x⟩).remove_labels.map
        ItemData.item_id := by
    intro y hyA hyR
    have h1 := List.count_pos_iff.2 hyA
    have h2 := List.count_pos_iff.2 hyR
    have := hbnd y
    omega
  obtain ⟨rec', hrec', hdrec⟩ := buildItemTree_datas _ q hbuild d hd
  rw [runMods_unsorted] at hrec'
  obtain ⟨r0, hr0, hfold⟩ := List.mem_map.1 hrec'
  have hid : rec'.id = r0.id := by
    rw [← hfold, remFold_id, addFold_id]
  have hdid : d.item_id = rec'.id := by rw [hdrec]; rfl
  have hdlab : d.labels = rec'.labels := by rw [hdrec]; rfl
  constructor
  · intro hmemA
    have hr0A : r0.id ∈ (Project.GetItemMods false p ⟨[], [], false, some x⟩).add_labels.map
        ItemData.item_id := by rw [← hid, ← hdid]; exact hmemA
    have hr0R : r0.id ∉ (Project.GetItemMods false p ⟨[], [], false, some x⟩).remove_labels.map
        ItemData.item_id := hdisj r0.id hr0A
    have hadd := addFold_mem_once false (some x)
      (Project.GetItemMods false p ⟨[], [], false, some x⟩).add_labels r0 hndA hr0A
    have hrem := remFold_not_mem false (some x)
      (Project.GetItemMods false p ⟨[], [], false, some x⟩).remove_labels
      (markAddRec false (some x) r0) (by rw [markAddRec_id]; exact hr0R)
    rw [hdlab, ← hfold, hadd, hrem]
    simp only [markAddRec, Bool.false_eq_true, if_false, labelAppend]
    exact contains_append_self r0.labels x
  · intro hmemR
    have hr0R : r0.id ∈ (Project.GetItemMods false p ⟨[], [], false, some x⟩).remove_labels.map
        ItemData.item_id := by rw [← hid, ← hdid]; exact hmemR
    have hr0A : r0.id ∉ (Project.GetItemMods false p ⟨[], [], false, some x⟩).add_labels.map
        ItemData.item_id := fun hA => hdisj r0.id hA hr0R
    have hadd := addFold_not_mem false (some x)
      (Project.GetItemMods false p ⟨[], [], false, some x⟩).add_labels r0 hr0A
    have hrem := remFold_mem_once false (some x)
      (Project.GetItemMods false p ⟨[], [], false, some x⟩).remove_labels r0 hndR
      (by rw [hdid, hid] at hmemR; exact hmemR)
    rw [hdlab, ← hfold, hadd, hrem]
    simp only [markRemoveRec, Bool.false_eq_true, if_false, labelErase]
    exact contains_erase_of_count_le_one r0.labels x (hcnt r0 hr0)

theorem c1_witness :
    Project.GetItemMods false c1proj ⟨[], [], false, some 7⟩ = ⟨[], [c1d1], true, some 7⟩ :=
  c1_sequential_chain false (some 7) c1proj c1d1 [c1d2] (by decide) rfl
    (by decide) (by decide)

theorem c2_witness :
    Project.GetItemMods false c2proj ⟨[], [], false, some 7⟩ =
      ⟨if false then []
       else (itemDatasL c2proj.children).filter (fun d => labelHas d.labels (some 7)),
       [], false, some 7⟩ :=
  c2_none_mode false (some 7) c2proj (by decide) (by decide)

/-- Counterexample to C2: in priority mode a none-mode project strips
nothing — the marker-carrying (priority 4) descendant is not put into the
remove list. -/
theorem c2_counterexample :
    hasMarker true none c2prioData = true ∧
      (Project.GetItemMods true c2prioProj ⟨[], [], false, none⟩).remove_labels = [] := by
  constructor
  · decide
  · decide

theorem c3_witness :
    c3td.GetProjectMods false 42 =
      ({ c3td with next_action_id := some 42 },
       [SyncMod.label_register 42 42 NEXT_ACTION_LABEL]) :=
  c3_handshake c3td 42 rfl

theorem c4_witness :
    c1d1 ∈ (⟨[], [], false, some 7⟩ : TraversalState).add_labels ∨ c1d1.checked = false :=
  c4_checked_never_added false c1proj ⟨[], [], false, some 7⟩ c1d1 (by decide)

theorem c5_witness :
    Item.GetItemMods false (Item.node c5data c5kids) ⟨[], [], false, some 7⟩ =
      selfMods false c5data
        ⟨[] ++ (c5kids.map (fun c => (modsF false (some 7) c false).2)).flatten,
         [] ++ (c5kids.map (fun c => (modsF false (some 7) c false).1)).flatten,
         (c5kids.map (fun c => foundItem c false)).foldl (fun a b => a || b) false,
         some 7⟩ :=
  c5_parallel_snapshot false c5data c5kids ⟨[], [], false, some 7⟩ (by decide)

theorem c6_witness : ((c6td.GetProjectMods false 1).1.GetProjectMods false 2).2 = [] :=
  c6_locally_idempotent false c6td 1 2 (Or.inr ⟨7, rfl⟩)
    (by
      intro p hp
      simp only [c6td, List.mem_singleton] at hp
      subst hp
      exact Or.inr ⟨7, rfl, by decide⟩)

theorem c7_witness : updProjects [c7rec] [] = some ([] ++ [Project.ofRec c7rec]) :=
  c7_amended.1 [] c7rec (by decide) rfl

theorem c10_witness : (⟨false, "Solo", 1, 61, [7], 1⟩ : ItemData).labels.contains 7 = true :=
  (c10_mirror_carries_marker 7 0 p10 q10 (by decide) (by decide) (by rfl)
    ⟨false, "Solo", 1, 61, [7], 1⟩ (by decide)).1 (by decide)
